import Mathlib

/-!
Shallow embedding of the MealSteals deal-discovery and reconciliation pipeline.

The definitions below are translated from the repository's Python sources:
* `dealscraper/repository/deal_repository.py` (price normalization, deal
  matching, the `save_deals` reconciliation pass),
* `dealAPI/app/schemas/deal.py` (`DealBase.normalize_day_of_week`),
* `dealscraper/scrape_deals.py` (link classification, extraction fallback),
* `dealAPI/app/services/restaurant_service.py` (open-hours evaluation).

Strings are modelled over their character lists; Python `str.lower()` /
`str.strip()` are modelled for ASCII input (the day names, keywords and hour
lines the pipeline manipulates are ASCII).  `Decimal` values are modelled in
`Decimal`'s own coefficient/exponent representation, with integer arithmetic.
-/

/-- ASCII lowercase table, as Python `str.lower()` acts on A–Z. -/
def upperLowerTable : List (Char × Char) :=
  [('A','a'), ('B','b'), ('C','c'), ('D','d'), ('E','e'), ('F','f'), ('G','g'),
   ('H','h'), ('I','i'), ('J','j'), ('K','k'), ('L','l'), ('M','m'), ('N','n'),
   ('O','o'), ('P','p'), ('Q','q'), ('R','r'), ('S','s'), ('T','t'), ('U','u'),
   ('V','v'), ('W','w'), ('X','x'), ('Y','y'), ('Z','z')]

/-- Lowercase a character, Python-style (ASCII range). -/
def pyLowerChar (c : Char) : Char := (upperLowerTable.lookup c).getD c

/-- Model of Python `str.lower()` (ASCII range). -/
def pyLower (s : String) : String := String.mk (s.toList.map pyLowerChar)

/-- Python whitespace characters stripped by `str.strip()`. -/
def isPySpace (c : Char) : Bool :=
  c == ' ' || c == '\t' || c == '\n' || c == '\r' || c == Char.ofNat 11 || c == Char.ofNat 12

/-- Model of Python `str.strip()`: drop leading and trailing whitespace. -/
def pyStrip (s : String) : String :=
  String.mk (((s.toList.dropWhile isPySpace).reverse.dropWhile isPySpace).reverse)

/-- Model of Python `needle in haystack` substring test. -/
def containsSub (needle hay : String) : Bool := decide (needle.toList <:+: hay.toList)

/-- Model of Python `s.endswith(suffix)`. -/
def pyEndsWith (s suffix : String) : Bool := decide (suffix.toList <:+ s.toList)

/-- Model of Python `s.startswith(p)`. -/
def pyStartsWith (s p : String) : Bool := decide (p.toList <+: s.toList)

/-- Remove every occurrence of a character; models Python `s.replace(ch, "")`. -/
def removeAll (ch : Char) (s : String) : String :=
  String.mk (s.toList.filter (fun c => c ≠ ch))

/-- Replace every occurrence of one character by another; models `s.replace(a, b)`
for one-character arguments. -/
def replaceChar (a b : Char) (s : String) : String :=
  String.mk (s.toList.map (fun c => if c = a then b else c))

/-! ## Day-of-week normalizer (`DealBase.normalize_day_of_week`, dealAPI/app/schemas/deal.py) -/

/-- The `DayOfWeek` enum of the API schema. -/
inductive PyDayOfWeek where
  | monday | tuesday | wednesday | thursday | friday | saturday | sunday
deriving DecidableEq, Repr

/-- `DayOfWeek.<member>.value`. -/
def dayOfWeekValue : PyDayOfWeek → String
  | .monday => "monday"
  | .tuesday => "tuesday"
  | .wednesday => "wednesday"
  | .thursday => "thursday"
  | .friday => "friday"
  | .saturday => "saturday"
  | .sunday => "sunday"

/-- `[day.value for day in DayOfWeek]` — the full seven-day list, in enum order. -/
def allSevenDays : List String :=
  ["monday", "tuesday", "wednesday", "thursday", "friday", "saturday", "sunday"]

/-- The `everyday_variants` list of the validator. -/
def everydayVariants : List String :=
  ["everyday", "daily", "all week", "all days", "every day",
   "7 days", "whole week", "entire week", "all"]

/-- The `day_mapping` dict of the validator. -/
def dayMapping : List (String × PyDayOfWeek) :=
  [("monday", .monday), ("tuesday", .tuesday), ("wednesday", .wednesday),
   ("thursday", .thursday), ("friday", .friday), ("saturday", .saturday),
   ("sunday", .sunday),
   ("mon", .monday), ("tue", .tuesday), ("wed", .wednesday), ("thu", .thursday),
   ("fri", .friday), ("sat", .saturday), ("sun", .sunday)]

/-- An element of a `day_of_week` list input: a string, a `DayOfWeek` member, or
any other value (skipped by the validator). -/
inductive DayInputItem where
  | str (s : String)
  | day (d : PyDayOfWeek)
  | other
deriving DecidableEq, Repr

/-- The `day_of_week` input value handed to the validator: `None`, a string, a
list, or any other (truthy) value, which falls through to the final fallback. -/
inductive DayInput where
  | noneV
  | str (s : String)
  | list (items : List DayInputItem)
  | other
deriving DecidableEq, Repr

/-- The per-element loop of the list branch of `normalize_day_of_week`,
carrying the `normalized_days` accumulator. -/
def normListLoop : List DayInputItem → List String → List String
  | [], acc => if acc.isEmpty then allSevenDays else acc
  | .str s :: rest, acc =>
    let sl := pyStrip (pyLower s)
    if everydayVariants.contains sl then allSevenDays
    else
      match dayMapping.lookup sl with
      | some d => normListLoop rest (acc ++ [dayOfWeekValue d])
      | none => normListLoop rest acc
  | .day d :: rest, acc => normListLoop rest (acc ++ [dayOfWeekValue d])
  | .other :: rest, acc => normListLoop rest acc

/-- `DealBase.normalize_day_of_week` (dealAPI/app/schemas/deal.py).
The falsy check `if not v` covers `None`, the empty string and the empty list. -/
def normalize_day_of_week : DayInput → List String
  | .noneV => allSevenDays
  | .str s =>
    if s = "" then allSevenDays
    else
      let sl := pyStrip (pyLower s)
      if everydayVariants.contains sl then allSevenDays
      else
        match dayMapping.lookup sl with
        | some d => [dayOfWeekValue d]
        | none => allSevenDays
  | .list [] => allSevenDays
  | .list (i :: items) => normListLoop (i :: items) []
  | .other => allSevenDays

/-! ## Price normalization (`normalize_deal_data`, dealscraper/repository/deal_repository.py)

Python's `Decimal(str).quantize(Decimal("0.01"))` is modelled in `Decimal`'s
coefficient/exponent representation: a finite decimal literal (optional sign,
digits, decimal point, exponent, with underscores allowed between digits)
parses to `coeff × 10^exp`; `inf`/`nan` forms and unparseable strings yield
`none` (the constructor or the quantize call signals, and `save_deals`'
`except` clause maps every signal to `None`).  Quantize rounds half-to-even
onto exponent `-2` and signals `InvalidOperation` (→ `none`) when the
resulting coefficient exceeds the default context precision of 28 digits. -/

/-- A Python `Decimal` value `coeff × 10^exp` (sign folded into the
coefficient).  Structural equality distinguishes `1.5` from `1.50`;
`pyDecimalEq` is the numeric equality that `==`/`!=` use. -/
structure PyDecimal where
  coeff : Int
  exp : Int
deriving DecidableEq, Repr

/-- Numeric equality of two decimals (Python `Decimal.__eq__`). -/
def pyDecimalEq (a b : PyDecimal) : Bool :=
  let m := min a.exp b.exp
  decide (a.coeff * (10 : Int) ^ (a.exp - m).toNat =
    b.coeff * (10 : Int) ^ (b.exp - m).toNat)

def charDigit (c : Char) : Nat := c.toNat - 48

def digitsToNat (l : List Char) : Nat := l.foldl (fun acc c => acc * 10 + charDigit c) 0

/-- Each underscore must sit between two digits (Python numeric-literal rule). -/
def underscoresOkAux : Option Char → List Char → Bool
  | _, [] => true
  | prev, '_' :: rest =>
    match prev, rest with
    | some p, n :: _ => p.isDigit && n.isDigit && underscoresOkAux (some '_') rest
    | _, _ => false
  | _, c :: rest => underscoresOkAux (some c) rest

def underscoresOk (l : List Char) : Bool := underscoresOkAux none l

/-- Parse the exponent tail `[eE] sign? digits` (input already lowercased). -/
def parseExponent (l : List Char) : Option Int :=
  match l with
  | [] => some 0
  | 'e' :: r =>
    let (negE, r1) : Bool × List Char :=
      match r with
      | '-' :: t => (true, t)
      | '+' :: t => (false, t)
      | _ => (false, r)
    let (ds, r2) := r1.span Char.isDigit
    if ds.isEmpty ∨ ¬ r2.isEmpty then none
    else some (if negE then -(digitsToNat ds : Int) else (digitsToNat ds : Int))
  | _ => none

/-- Parse a finite decimal string; `none` on syntax error and on the
`inf`/`nan` forms (which cannot survive the subsequent quantize). -/
def parseDec (s : String) : Option PyDecimal :=
  let l0 := s.toList
  if ¬ underscoresOk l0 then none
  else
    let l1 := (l0.filter (fun c => c ≠ '_')).map pyLowerChar
    let (neg, l2) : Bool × List Char :=
      match l1 with
      | '-' :: t => (true, t)
      | '+' :: t => (false, t)
      | _ => (false, l1)
    if l2 = "inf".toList ∨ l2 = "infinity".toList then none
    else if ("nan".toList <+: l2 ∧ (l2.drop 3).all Char.isDigit) ∨
            ("snan".toList <+: l2 ∧ (l2.drop 4).all Char.isDigit) then none
    else
      let (ip, r1) := l2.span Char.isDigit
      let (fp, r2) : List Char × List Char :=
        match r1 with
        | '.' :: t => t.span Char.isDigit
        | _ => ([], r1)
      if ip.isEmpty ∧ fp.isEmpty then none
      else
        match parseExponent r2 with
        | none => none
        | some e =>
          let coeff : Int := (digitsToNat (ip ++ fp) : Int)
          some { coeff := if neg then -coeff else coeff, exp := e - fp.length }

/-- Round `n / d` (`d > 0`) to the nearest integer, ties to even
(`ROUND_HALF_EVEN`). -/
def roundHalfEvenInt (n d : Int) : Int :=
  let f := n.fdiv d
  let r := n.fmod d
  if 2 * r < d then f
  else if 2 * r > d then f + 1
  else if f % 2 = 0 then f else f + 1

/-- Number of decimal digits of a natural number (coefficient length). -/
def digits10 (n : Nat) : Nat := (Nat.toDigits 10 n).length

/-- `Decimal.quantize(Decimal("0.01"))` under the default context: rescale to
exponent `-2` with half-even rounding, `InvalidOperation` (→ `none`) when the
result's coefficient would exceed 28 digits. -/
def quantizeCents (x : PyDecimal) : Option PyDecimal :=
  let k : Int :=
    if 0 ≤ x.exp + 2 then x.coeff * (10 : Int) ^ (x.exp + 2).toNat
    else roundHalfEvenInt x.coeff ((10 : Int) ^ (-(x.exp + 2)).toNat)
  if digits10 k.natAbs ≤ 28 then some ⟨k, -2⟩ else none

/-- The placeholder values `["null", "none", "n/a", ""]` checked by
`normalize_deal_data`. -/
def pricePlaceholders : List String := ["null", "none", "n/a", ""]

/-- The price branch of `normalize_deal_data`: the raw value's `str()` form has
`$` and `,` removed and is stripped; empty or placeholder strings become `None`;
otherwise `Decimal(price_str).quantize(Decimal("0.01"))`, with every exception
mapped to `None`. -/
def normalize_price (raw : Option String) : Option PyDecimal :=
  match raw with
  | none => none
  | some v =>
    let priceStr := pyStrip (removeAll ',' (removeAll '$' v))
    if priceStr = "" ∨ pricePlaceholders.contains (pyLower priceStr) then none
    else
      match parseDec priceStr with
      | none => none
      | some q => quantizeCents q

/-! ## Deal reconciliation (dealscraper/repository/deal_repository.py) -/

/-- An element of a deal's `day_of_week` list: a (day-name) string or any
non-string value, which Python's `day.lower() if isinstance(day, str) else day`
passes through untouched (modelled as an opaque tag). -/
inductive DayTok where
  | str (s : String)
  | raw (n : Nat)
deriving DecidableEq, Repr

/-- `day.lower() if isinstance(day, str) else day`. -/
def lowerTok : DayTok → DayTok
  | .str s => .str (pyLower s)
  | t => t

/-- The shape of a deal dict's `day_of_week` value: absent/None, a string, or a
list (the shapes produced by the extractor and stored in the table). -/
inductive DayWkField where
  | noneF
  | strF (s : String)
  | listF (l : List DayTok)
deriving DecidableEq, Repr

/-- A raw scraped deal dict as handed to `save_deals`.  `price` holds the
`str()` rendering of whatever value the model returned (absent/`None` → `none`). -/
structure RawDeal where
  dish : Option String
  price : Option String
  day_of_week : DayWkField
  notes : Option String
deriving DecidableEq, Repr

/-- A scraped deal dict after `normalize_deal_data`. -/
structure NormDeal where
  restaurant_id : String
  dish : Option String
  price : Option PyDecimal
  day_of_week : List DayTok
  notes : Option String
deriving DecidableEq, Repr

/-- A deal item of the DynamoDB `deals` table.  Numeric attributes deserialize
as `Decimal`, so `price` is modelled directly as an optional decimal (making
the `Decimal(str(existing_price))` conversion in `deal_needs_update` the
identity). -/
structure DynDeal where
  uuid : String
  restaurant_id : String
  dish : Option String
  price : Option PyDecimal
  day_of_week : DayWkField
  notes : Option String
  created_at : Option String
  updated_at : Option String
  is_deleted : Bool
  deleted_at : Option String
deriving DecidableEq, Repr

/-- `normalize_deal_data(deal, restaurant_id)`: adds the restaurant id, turns
`day_of_week` into a list of lowercased entries, parses `price` and strips
`dish`. -/
def normalize_deal_data (deal : RawDeal) (restaurantId : String) : NormDeal :=
  { restaurant_id := restaurantId
    dish := deal.dish.map pyStrip
    price := normalize_price deal.price
    day_of_week :=
      match deal.day_of_week with
      | .noneF => []
      | .strF s => [.str (pyLower s)]
      | .listF l => l.map lowerTok
    notes := deal.notes }

/-- `existing_days` as computed inside `deals_match`: coerce a stored
`day_of_week` (string / list / anything else) to a list and lowercase the
string entries. -/
def existingDays (e : DynDeal) : List DayTok :=
  match e.day_of_week with
  | .strF s => [lowerTok (.str s)]
  | .listF l => l.map lowerTok
  | .noneF => []

/-- Python `set(a) == set(b)`. -/
def listSetEq (a b : List DayTok) : Bool :=
  decide (∀ x ∈ a, x ∈ b) && decide (∀ x ∈ b, x ∈ a)

/-- `deals_match(scraped_deal, existing_deal)`: case-insensitive dish equality
plus day-of-week set equality. -/
def deals_match (scraped : NormDeal) (existing : DynDeal) : Bool :=
  decide (pyLower (scraped.dish.getD "") = pyLower (existing.dish.getD "")) &&
    listSetEq scraped.day_of_week (existingDays existing)

/-- `deal_needs_update(scraped_deal, existing_deal)`:
`scraped_price != existing_price` — `None != None` is false, `None` against a
`Decimal` is true, and two `Decimal`s compare numerically. -/
def deal_needs_update (scraped : NormDeal) (existing : DynDeal) : Bool :=
  match scraped.price, existing.price with
  | none, none => false
  | some a, some b => !(pyDecimalEq a b)
  | _, _ => true

/-- `deal.get("dish")` truthiness used to filter scraped deals. -/
def rawDishTruthy (d : RawDeal) : Bool :=
  match d.dish with
  | some s => decide (s ≠ "")
  | none => false

/-- The update write: `updated_deal = existing_deal.copy()` with `price` and
`updated_at` overwritten. -/
def applyUpdate (e : DynDeal) (c : NormDeal) (now : String) : DynDeal :=
  { e with price := c.price, updated_at := some now }

/-- The obsoletion write: soft delete with `deleted_at = updated_at = now`. -/
def applyObsolete (now : String) (e : DynDeal) : DynDeal :=
  { e with is_deleted := true, deleted_at := some now, updated_at := some now }

/-- The creation write: `scraped_deal.copy()` plus fresh uuid, `created_at = now`,
`updated_at = None`, `is_deleted = False`, `deleted_at = None`. -/
def mkNewDeal (c : NormDeal) (u : String) (now : String) : DynDeal :=
  { uuid := u, restaurant_id := c.restaurant_id, dish := c.dish, price := c.price,
    day_of_week := .listF c.day_of_week, notes := c.notes,
    created_at := some now, updated_at := none, is_deleted := false, deleted_at := none }

/-- The loop state of `save_deals`' candidate loop: `new_deals`, `updated_deals`
and `matched_existing_ids` (the id set is modelled as the list of ids added;
only membership is ever consulted). -/
structure LoopState where
  new_deals : List DynDeal
  updated_deals : List DynDeal
  matched_ids : List String
deriving Repr

/-- One iteration of the candidate loop: scan `existing_deals` for the first
match (`break`), record the matched id and an update if the price changed;
otherwise build a new deal whose uuid is drawn from the generator (one fresh
uuid per created deal). -/
def stepCandidate (existing : List DynDeal) (now : String) (gen : Nat → String)
    (st : LoopState) (c : NormDeal) : LoopState :=
  match existing.find? (fun e => deals_match c e) with
  | some e =>
    let st1 : LoopState := { st with matched_ids := st.matched_ids ++ [e.uuid] }
    if deal_needs_update c e then
      { st1 with updated_deals := st1.updated_deals ++ [applyUpdate e c now] }
    else st1
  | none =>
    { st with new_deals := st.new_deals ++ [mkNewDeal c (gen st.new_deals.length) now] }

/-- The batched writes produced by one `save_deals` pass. -/
structure SaveResult where
  new_deals : List DynDeal
  updated_deals : List DynDeal
  obsolete_deals : List DynDeal
  matched_ids : List String
deriving Repr

/-- `save_deals(deals, restaurant_id)` (dealscraper/repository/deal_repository.py):
the early return on an empty `deals` list, the dish-truthiness filter plus
normalization, the match/update/create loop, and the obsoletion sweep over
existing deals whose id was never matched.  `existing` stands for
`get_deals_by_restaurant_id(restaurant_id)` (the store's active deals), `now`
for `get_current_timestamp()` and `gen` for `uuid.uuid4()` draws. -/
def save_deals (deals : List RawDeal) (existing : List DynDeal)
    (restaurantId now : String) (gen : Nat → String) : SaveResult :=
  if deals.isEmpty then
    { new_deals := [], updated_deals := [], obsolete_deals := [], matched_ids := [] }
  else
    let normalized := (deals.filter rawDishTruthy).map (fun d => normalize_deal_data d restaurantId)
    let st := normalized.foldl (stepCandidate existing now gen) ⟨[], [], []⟩
    let obsolete :=
      (existing.filter (fun e => !(decide (e.uuid ∈ st.matched_ids)))).map (applyObsolete now)
    { new_deals := st.new_deals, updated_deals := st.updated_deals,
      obsolete_deals := obsolete, matched_ids := st.matched_ids }

/-- Effect of the batch write on the table, for rows of this restaurant: each
`put_item` overwrites the row with the same primary key (`uuid`), so existing
rows are replaced by their updated/obsoleted versions and created rows are
appended (uuid4 draws are assumed not to collide with stored ids). -/
def applyState (existing : List DynDeal) (r : SaveResult) : List DynDeal :=
  existing.map (fun e =>
    ((r.updated_deals ++ r.obsolete_deals).find? (fun u => decide (u.uuid = e.uuid))).getD e)
    ++ r.new_deals

/-- `get_deals_by_restaurant_id`: the active (non-deleted) rows of one
restaurant. -/
def activeDealsFor (restaurantId : String) (table : List DynDeal) : List DynDeal :=
  table.filter (fun d => decide (d.restaurant_id = restaurantId) && !d.is_deleted)

/-! ## Deal extraction (dealscraper/scrape_deals.py) -/

/-- The dict built from the model's JSON response: the three prompted keys, each
possibly null.  `day_of_week` reuses `DayWkField` (null / string / list). -/
structure DealJson where
  dish : Option String
  price : Option String
  day_of_week : DayWkField
deriving DecidableEq, Repr

/-- The all-null default used when `json.loads` raises `JSONDecodeError`. -/
def defaultDealJson : DealJson := ⟨none, none, .noneF⟩

/-- `__extract_deal_details_from_text`: parse the model response as JSON
(`some j` on success, `none` models a `JSONDecodeError`), falling back to the
all-null dict.  The decode failure is caught, never propagated. -/
def extract_deal_details_from_text (parsed : Option DealJson) : DealJson :=
  parsed.getD defaultDealJson

/-- Result of `__extract_deal_details_from_image`: the string `"n/a"` for a
rejected content type, else a parsed-or-default dict. -/
inductive ImageExtractResult where
  | na
  | json (j : DealJson)
deriving DecidableEq, Repr

/-- `__extract_deal_details_from_image`: reject content types outside the
allow-list with `"n/a"`; otherwise parse the vision response as JSON with the
same all-null fallback. -/
def extract_deal_details_from_image (contentType : String) (parsed : Option DealJson) :
    ImageExtractResult :=
  if ["image/png", "image/jpeg", "image/gif"].contains contentType then
    .json (parsed.getD defaultDealJson)
  else .na

/-- `any([val is None for val in deal_info.values()])`. -/
def dealJsonHasNone (j : DealJson) : Bool :=
  j.dish.isNone || j.price.isNone || (match j.day_of_week with | .noneF => true | _ => false)

/-- The final `deal_info` value stored by `find_deal_details`: a dict, or the
string `"n/a"` when the image path rejected the content type. -/
inductive DealInfoVal where
  | obj (j : DealJson)
  | na
deriving DecidableEq, Repr

/-- The `deal_info` computation of `find_deal_details` (lines 378–398): text
extraction first; if any field is null, fall back to the largest page image
(when one exists and its URL is absolute http(s)) and re-extract with the
vision model — the guard `deal_info != "n/a"` always holds there because the
text extractor returns a dict. -/
def find_deal_details_deal_info (textParsed : Option DealJson) (largeImage : Option String)
    (imgContentType : String) (visionParsed : Option DealJson) : DealInfoVal :=
  let dealInfo := extract_deal_details_from_text textParsed
  if dealJsonHasNone dealInfo then
    match largeImage with
    | some url =>
      if pyStartsWith url "https" || pyStartsWith url "http" then
        match extract_deal_details_from_image imgContentType visionParsed with
        | .na => .na
        | .json j => .obj j
      else .obj dealInfo
    | none => .obj dealInfo
  else .obj dealInfo

/-! ## Second-pass link classification (`find_deals_page`, dealscraper/scrape_deals.py) -/

def DEAL_SPECIFIC_KEYWORDS : List String :=
  ["special", "specials", "deal", "deals",
   "monday", "tuesday", "wednesday", "thursday", "friday", "saturday", "sunday",
   "daily", "wings", "parm", "steak", "pizza", "roast"]

def DEAL_SPECIFIC_BLACKLIST : List String := ["steakhouse"]

def IMG_FILE_EXTENSIONS : List String :=
  ["jpg", "jpeg", "png", "gif", "bmp", "webp", "tiff", "svg"]

def socialSubstrings : List String :=
  ["facebook.com", "instagram.com", "twitter.com", "mailto"]

/-- An accepted second-pass entry of `self.deals` (keyed by href in the
source). -/
structure LinkRecord where
  link_type : String
  link_text : String
  image_link : Option String
deriving DecidableEq, Repr

/-- The second-pass loop body of `find_deals_page` for one link: lowercase and
strip the visible text, classify the href as image/text by extension, skip
social-media/mailto hrefs, then accept on deal keywords in the text (without a
blacklisted term), or for image links on deal keywords in the href itself.
`none` means the link is not recorded (a `None` href raises on `endswith` and
is swallowed by the per-link `except`). -/
def classify_second_pass_link (href : Option String) (rawText : String) : Option LinkRecord :=
  match href with
  | none => none
  | some h =>
    let text := pyStrip (pyLower rawText)
    let linkType := if IMG_FILE_EXTENSIONS.any (fun ext => pyEndsWith h ext) then "image" else "text"
    if decide (h ≠ "") && !(socialSubstrings.any (fun d => containsSub d h)) then
      if DEAL_SPECIFIC_KEYWORDS.any (fun k => containsSub k text) &&
          !(DEAL_SPECIFIC_BLACKLIST.any (fun k => containsSub k text)) then
        some ⟨linkType, text, none⟩
      else if decide (linkType = "image") &&
          DEAL_SPECIFIC_KEYWORDS.any (fun k => containsSub k (pyLower h)) &&
          !(DEAL_SPECIFIC_BLACKLIST.any (fun k => containsSub k text)) then
        some ⟨linkType, text, some h⟩
      else none
    else none

/-! ## Open-hours evaluation (`RestaurantService`, dealAPI/app/services/restaurant_service.py)

The two regexes are modelled as explicit leftmost-greedy matchers with
backtracking alternatives, over the same character classes. -/

/-- `\w` on ASCII input. -/
def isWordChar (c : Char) : Bool := c.isAlphanum || c == '_'

/-- `re.match(r"(\w+(?:-\w+)?)\s*:\s*(.+)", hours_entry)` with both groups
stripped: the day pattern (word, optionally dash-joined to a second word) and
the time part of one hours line. -/
def parseDayTimeLine (line : String) : Option (String × String) :=
  let l := line.toList
  let (w1, r1) := l.span isWordChar
  if w1.isEmpty then none
  else
    let (dayPart, r2) : List Char × List Char :=
      match r1 with
      | '-' :: rest =>
        let (w2, r') := rest.span isWordChar
        if w2.isEmpty then (w1, r1) else (w1 ++ '-' :: w2, r')
      | _ => (w1, r1)
    let r3 := r2.dropWhile isPySpace
    match r3 with
    | ':' :: r4 =>
      let r5 := r4.dropWhile isPySpace
      let timePart := r5.takeWhile (fun c => c ≠ '\n')
      if timePart.isEmpty then none
      else some (pyStrip (String.mk dayPart), pyStrip (String.mk timePart))
    | _ => none

/-- The `day_abbrev` dict of `_day_matches`. -/
def dayAbbrevTable : List (String × List String) :=
  [("Monday", ["mon", "monday"]), ("Tuesday", ["tue", "tues", "tuesday"]),
   ("Wednesday", ["wed", "wednesday"]), ("Thursday", ["thu", "thurs", "thursday"]),
   ("Friday", ["fri", "friday"]), ("Saturday", ["sat", "saturday"]),
   ("Sunday", ["sun", "sunday"])]

/-- The `day_numbers` dict of `_day_matches` (Monday=0 … Sunday=6). -/
def dayNumbersTable : List (String × Nat) :=
  [("mon", 0), ("monday", 0), ("tue", 1), ("tues", 1), ("tuesday", 1),
   ("wed", 2), ("wednesday", 2), ("thu", 3), ("thurs", 3), ("thursday", 3),
   ("fri", 4), ("friday", 4), ("sat", 5), ("saturday", 5), ("sun", 6), ("sunday", 6)]

/-- `_day_matches(current_day, day_pattern)`: substring match on the full name,
then on the abbreviations of the current day, then a `Mon-Fri` style range with
week wrapping; a malformed range (`split` not yielding two parts) is swallowed
and the function returns false. -/
def day_matches (currentDay dayPattern : String) : Bool :=
  let dpl := pyLower dayPattern
  let cdl := pyLower currentDay
  if containsSub cdl dpl then true
  else if ((dayAbbrevTable.lookup currentDay).getD []).any (fun a => containsSub a dpl) then true
  else if containsSub "-" dayPattern then
    match dayPattern.splitOn "-" with
    | [sd, ed] =>
      let sdl := pyLower (pyStrip sd)
      let edl := pyLower (pyStrip ed)
      match dayNumbersTable.lookup cdl, dayNumbersTable.lookup sdl, dayNumbersTable.lookup edl with
      | some cn, some sn, some en =>
        if sn ≤ en then decide (sn ≤ cn ∧ cn ≤ en) else decide (cn ≥ sn ∨ cn ≤ en)
      | _, _, _ => false
    | _ => false
  else false

/-- One end of a matched time range. -/
structure TimeMatch where
  h1 : Nat
  m1 : Nat
  p1 : Option Bool
  h2 : Nat
  m2 : Nat
  p2 : Option Bool
deriving DecidableEq, Repr

/-- `(\d{1,2})`: greedy alternatives (two digits, then one). -/
def digitAlts12 (l : List Char) : List (Nat × List Char) :=
  match l with
  | a :: b :: rest =>
    if a.isDigit ∧ b.isDigit then
      [(charDigit a * 10 + charDigit b, rest), (charDigit a, b :: rest)]
    else if a.isDigit then [(charDigit a, b :: rest)]
    else []
  | [a] => if a.isDigit then [(charDigit a, [])] else []
  | [] => []

/-- `(\d{0,2})`: greedy alternatives; an empty group reads as minute 0. -/
def digitAlts02 (l : List Char) : List (Nat × List Char) :=
  (match l with
   | a :: b :: rest =>
     if a.isDigit ∧ b.isDigit then [(charDigit a * 10 + charDigit b, rest)] else []
   | _ => []) ++
  (match l with
   | a :: rest => if a.isDigit then [(charDigit a, rest)] else []
   | [] => []) ++
  [(0, l)]

/-- `:?`: greedy alternatives. -/
def colonAlts (l : List Char) : List (List Char) :=
  match l with
  | ':' :: rest => [rest, l]
  | _ => [l]

/-- `\s*`: greedy alternatives. -/
def spaceAlts (l : List Char) : List (List Char) :=
  let n := (l.takeWhile isPySpace).length
  (List.range (n + 1)).map (fun i => l.drop (n - i))

/-- `(AM|PM|am|pm)?`: alternatives in the pattern's order (`some true` = PM). -/
def periodAlts (l : List Char) : List (Option Bool × List Char) :=
  (match l with | 'A' :: 'M' :: rest => [(some false, rest)] | _ => []) ++
  (match l with | 'P' :: 'M' :: rest => [(some true, rest)] | _ => []) ++
  (match l with | 'a' :: 'm' :: rest => [(some false, rest)] | _ => []) ++
  (match l with | 'p' :: 'm' :: rest => [(some true, rest)] | _ => []) ++
  [(none, l)]

/-- Match the time-range pattern anchored at the start of `l` (dashes already
normalized to `-`), exploring alternatives in leftmost-greedy order. -/
def matchTimeAt (l : List Char) : Option TimeMatch :=
  ((digitAlts12 l).flatMap (fun a1 =>
    (colonAlts a1.2).flatMap (fun r2 =>
      (digitAlts02 r2).flatMap (fun a2 =>
        (spaceAlts a2.2).flatMap (fun r4 =>
          (periodAlts r4).flatMap (fun a3 =>
            (spaceAlts a3.2).flatMap (fun r6 =>
              match r6 with
              | '-' :: r7 =>
                (spaceAlts r7).flatMap (fun r8 =>
                  (digitAlts12 r8).flatMap (fun a4 =>
                    (colonAlts a4.2).flatMap (fun r10 =>
                      (digitAlts02 r10).flatMap (fun a5 =>
                        (spaceAlts a5.2).flatMap (fun r12 =>
                          (periodAlts r12).map (fun a6 =>
                            (⟨a1.1, a2.1, a3.1, a4.1, a5.1, a6.1⟩ : TimeMatch)))))))
              | _ => []))))))).head?

/-- `re.search` of the time-range pattern: try each start position left to
right. -/
def searchTime : List Char → Option TimeMatch
  | [] => none
  | c :: rest => (matchTimeAt (c :: rest)).orElse (fun _ => searchTime rest)

/-- 12-hour → 24-hour conversion as written in `_is_time_in_range`. -/
def to24 (h : Nat) (p : Option Bool) : Nat :=
  match p with
  | some true => if h ≠ 12 then h + 12 else h
  | some false => if h = 12 then 0 else h
  | none => h

/-- `datetime.time` comparison (lexicographic on hour, minute). -/
def timeLE (a b : Nat × Nat) : Bool := decide (a.1 < b.1 ∨ (a.1 = b.1 ∧ a.2 ≤ b.2))

/-- `_is_time_in_range(current_time, time_range)`: normalize dashes, search the
time pattern, convert to 24-hour, validate with `time()` (hour ≤ 23,
minute ≤ 59; a `ValueError` yields false), then the inclusive range check with
the overnight branch when start > end. -/
def is_time_in_range (curH curM : Nat) (timeRange : String) : Bool :=
  let tr := replaceChar '—' '-' (replaceChar '–' '-' timeRange)
  match searchTime tr.toList with
  | none => false
  | some m =>
    let sh := to24 m.h1 m.p1
    let eh := to24 m.h2 m.p2
    if sh ≤ 23 ∧ m.m1 ≤ 59 ∧ eh ≤ 23 ∧ m.m2 ≤ 59 then
      if timeLE (sh, m.m1) (eh, m.m2) then
        timeLE (sh, m.m1) (curH, curM) && timeLE (curH, curM) (eh, m.m2)
      else
        timeLE (sh, m.m1) (curH, curM) || timeLE (curH, curM) (eh, m.m2)
    else false

/-- The per-line loop of `_is_restaurant_open_now`: skip falsy lines, "24
hours"/"24/7" is immediately open, "closed" lines are skipped, otherwise parse
day and time parts and test both against the current local day and time. -/
def checkHoursLines (currentDay : String) (curH curM : Nat) : List String → Bool
  | [] => false
  | line :: rest =>
    if line = "" then checkHoursLines currentDay curH curM rest
    else if containsSub "24 hours" (pyLower line) || containsSub "24/7" (pyLower line) then true
    else if containsSub "closed" (pyLower line) then checkHoursLines currentDay curH curM rest
    else
      match parseDayTimeLine line with
      | none => checkHoursLines currentDay curH curM rest
      | some dt =>
        if day_matches currentDay dt.1 then
          if is_time_in_range curH curM dt.2 then true
          else checkHoursLines currentDay curH curM rest
        else checkHoursLines currentDay curH curM rest

/-- `_is_restaurant_open_now(restaurant)`: closed without hours; closed when the
local time cannot be determined (no/invalid timezone); otherwise scan the hours
lines.  `localTime` is the restaurant-local `(strftime("%A"), hour, minute)`. -/
def is_restaurant_open_now (openHours : List String)
    (localTime : Option (String × Nat × Nat)) : Bool :=
  if openHours.isEmpty then false
  else
    match localTime with
    | none => false
    | some t => checkHoursLines t.1 t.2.1 t.2.2 openHours

/-! ## Proof-support definitions -/

/-- A list element that matches neither an everyday synonym nor a day name in
the list branch of the validator (and so contributes nothing). -/
def listItemFails : DayInputItem → Bool
  | .str s =>
    !(everydayVariants.contains (pyStrip (pyLower s))) &&
      (dayMapping.lookup (pyStrip (pyLower s))).isNone
  | .day _ => false
  | .other => true

/-- A list element that is an everyday synonym string. -/
def isEverydayItem : DayInputItem → Bool
  | .str s => everydayVariants.contains (pyStrip (pyLower s))
  | _ => false

/-- The matching key of a normalized candidate: lowercased dish plus the
day-of-week set. -/
def keyOfNorm (c : NormDeal) : String × Finset DayTok :=
  (pyLower (c.dish.getD ""), c.day_of_week.toFinset)

/-- The matching key of a stored deal, as `deals_match` reads it. -/
def keyOfDeal (e : DynDeal) : String × Finset DayTok :=
  (pyLower (e.dish.getD ""), (existingDays e).toFinset)

/-- Closed form of the creations performed by the candidate loop (`k` is the
number of deals created so far, indexing the uuid generator). -/
def createdList (E : List DynDeal) (now : String) (gen : Nat → String) :
    Nat → List NormDeal → List DynDeal
  | _, [] => []
  | k, c :: cs =>
    match E.find? (fun e => deals_match c e) with
    | some _ => createdList E now gen k cs
    | none => mkNewDeal c (gen k) now :: createdList E now gen (k + 1) cs

/-- Closed form of the updates performed by the candidate loop. -/
def updatedList (E : List DynDeal) (now : String) (N : List NormDeal) : List DynDeal :=
  N.filterMap (fun c => (E.find? (fun e => deals_match c e)).bind
    (fun e => if deal_needs_update c e then some (applyUpdate e c now) else none))

/-- Closed form of the matched-id list recorded by the candidate loop. -/
def matchedList (E : List DynDeal) (N : List NormDeal) : List String :=
  N.filterMap (fun c => (E.find? (fun e => deals_match c e)).map DynDeal.uuid)

/-- Example scraped deal: a Tuesday rump steak at a new price. -/
def exRawRump : RawDeal := ⟨some "Rump Steak", some "20", .strF "Tuesday", none⟩

/-- Example scraped deal: Wednesday wings, unknown to the store. -/
def exRawWings : RawDeal := ⟨some "Wings", some "15", .strF "Wednesday", some "happy hour"⟩

/-- Example scraped deal matching `exDealNotes` with equal price but different notes. -/
def exRawNotes : RawDeal := ⟨some "Wings", some "15", .strF "Friday", some "new note"⟩

/-- Example stored deal matched by `exRawRump` (old price 25). -/
def exDealRump : DynDeal :=
  ⟨"u-a", "r1", some "rump steak", some ⟨2500, -2⟩, .listF [.str "tuesday"], none,
   some "t0", none, false, none⟩

/-- Example stored deal matched by no scraped candidate. -/
def exDealParma : DynDeal :=
  ⟨"u-b", "r1", some "Parma", some ⟨1800, -2⟩, .listF [.str "monday"], none,
   some "t0", none, false, none⟩

/-- Example stored deal with notes, matched by `exRawNotes` at the same price. -/
def exDealNotes : DynDeal :=
  ⟨"u-n", "r1", some "wings", some ⟨1500, -2⟩, .listF [.str "friday"], some "old note",
   some "t0", none, false, none⟩

/-- Example uuid generator (stands in for `uuid.uuid4()` draws). -/
def exGen : Nat → String := fun n => String.mk ('n' :: Nat.toDigits 10 n)

/-- Two scraped candidates sharing one matching key at different prices. -/
def exRawDupA : RawDeal := ⟨some "a", some "1", .strF "monday", none⟩

/-- Second candidate with the same key as `exRawDupA`. -/
def exRawDupB : RawDeal := ⟨some "a", some "2", .strF "monday", none⟩

/-! ## Supporting lemmas -/

theorem lookup_some_mem {α β : Type} [BEq α] [LawfulBEq α] {l : List (α × β)} {k : α} {v : β}
    (h : l.lookup k = some v) : (k, v) ∈ l := by
  induction l with
  | nil => simp [List.lookup] at h
  | cons p rest ih =>
    rcases p with ⟨a, b⟩
    by_cases hk : k = a
    · subst hk
      simp [List.lookup] at h
      simp [h]
    · have hne : (k == a) = false := beq_false_of_ne hk
      simp [List.lookup, hne] at h
      exact List.mem_cons_of_mem _ (ih h)

theorem upperLowerTable_lookup_snd_none :
    ∀ p ∈ upperLowerTable, upperLowerTable.lookup p.2 = none := by decide

theorem pyLowerChar_idem (c : Char) : pyLowerChar (pyLowerChar c) = pyLowerChar c := by
  unfold pyLowerChar
  cases h : upperLowerTable.lookup c with
  | none => simp [h]
  | some d =>
    have hmem : (c, d) ∈ upperLowerTable := lookup_some_mem h
    have hd : upperLowerTable.lookup d = none := upperLowerTable_lookup_snd_none (c, d) hmem
    simp [h, hd]

theorem pyLower_idem (s : String) : pyLower (pyLower s) = pyLower s := by
  have h : ∀ l : List Char,
      List.map pyLowerChar (List.map pyLowerChar l) = List.map pyLowerChar l := by
    intro l
    rw [List.map_map]
    exact List.map_congr_left (fun c _ => pyLowerChar_idem c)
  cases s with
  | mk l =>
    show String.mk (List.map pyLowerChar (List.map pyLowerChar l)) =
      String.mk (List.map pyLowerChar l)
    exact congrArg String.mk (h l)

theorem dayOfWeekValue_mem_allSevenDays (d : PyDayOfWeek) :
    dayOfWeekValue d ∈ allSevenDays := by
  cases d <;> decide

theorem normListLoop_ne_nil : ∀ (l : List DayInputItem) (acc : List String),
    normListLoop l acc ≠ [] := by
  intro l
  induction l with
  | nil =>
    intro acc
    unfold normListLoop
    split
    · decide
    · rename_i h
      intro hc
      subst hc
      simp at h
  | cons i rest ih =>
    intro acc
    cases i with
    | str s =>
      cases hc : everydayVariants.contains (pyStrip (pyLower s)) with
      | true => simp only [normListLoop, hc, if_true]; decide
      | false =>
        cases hl : dayMapping.lookup (pyStrip (pyLower s)) with
        | some d => simp only [normListLoop, hc, Bool.false_eq_true, if_false, hl]; exact ih _
        | none => simp only [normListLoop, hc, Bool.false_eq_true, if_false, hl]; exact ih _
    | day d => simp only [normListLoop]; exact ih _
    | other => simp only [normListLoop]; exact ih _

theorem normListLoop_mem : ∀ (l : List DayInputItem) (acc : List String),
    (∀ a ∈ acc, a ∈ allSevenDays) →
    ∀ d ∈ normListLoop l acc, d ∈ allSevenDays := by
  intro l
  induction l with
  | nil =>
    intro acc hacc d hd
    unfold normListLoop at hd
    split at hd
    · exact hd
    · exact hacc d hd
  | cons i rest ih =>
    intro acc hacc d hd
    cases i with
    | str s =>
      cases hc : everydayVariants.contains (pyStrip (pyLower s)) with
      | true =>
        simp only [normListLoop, hc, if_true] at hd
        exact hd
      | false =>
        cases hl : dayMapping.lookup (pyStrip (pyLower s)) with
        | some d2 =>
          simp only [normListLoop, hc, Bool.false_eq_true, if_false, hl] at hd
          refine ih _ ?_ d hd
          intro a ha
          rcases List.mem_append.mp ha with ha | ha
          · exact hacc a ha
          · rcases List.mem_singleton.mp ha with rfl
            exact dayOfWeekValue_mem_allSevenDays d2
        | none =>
          simp only [normListLoop, hc, Bool.false_eq_true, if_false, hl] at hd
          exact ih _ hacc d hd
    | day d2 =>
      simp only [normListLoop] at hd
      refine ih _ ?_ d hd
      intro a ha
      rcases List.mem_append.mp ha with ha | ha
      · exact hacc a ha
      · rcases List.mem_singleton.mp ha with rfl
        exact dayOfWeekValue_mem_allSevenDays d2
    | other =>
      simp only [normListLoop] at hd
      exact ih _ hacc d hd

theorem normListLoop_all_fail : ∀ (l : List DayInputItem) (acc : List String),
    (∀ i ∈ l, listItemFails i = true) →
    normListLoop l acc = normListLoop [] acc := by
  intro l
  induction l with
  | nil => intro acc _; rfl
  | cons i rest ih =>
    intro acc hfail
    have hi := hfail i (List.mem_cons_self i rest)
    cases i with
    | str s =>
      simp only [listItemFails, Bool.and_eq_true, Bool.not_eq_eq_eq_not, Bool.not_true,
        Option.isNone_iff_eq_none] at hi
      simp only [normListLoop, hi.1, Bool.false_eq_true, if_false, hi.2]
      exact ih _ (fun j hj => hfail j (List.mem_cons_of_mem _ hj))
    | day d => simp [listItemFails] at hi
    | other =>
      simp only [normListLoop]
      exact ih _ (fun j hj => hfail j (List.mem_cons_of_mem _ hj))

theorem normListLoop_everyday : ∀ (l : List DayInputItem) (acc : List String),
    (∃ i ∈ l, isEverydayItem i = true) →
    normListLoop l acc = allSevenDays := by
  intro l
  induction l with
  | nil => intro acc h; simp at h
  | cons i rest ih =>
    intro acc h
    rcases h with ⟨j, hj, hev⟩
    rcases List.mem_cons.mp hj with rfl | hj2
    · cases j with
      | str s =>
        simp only [isEverydayItem] at hev
        simp only [normListLoop, hev, if_true]
      | day d => simp [isEverydayItem] at hev
      | other => simp [isEverydayItem] at hev
    · cases i with
      | str s =>
        cases hc : everydayVariants.contains (pyStrip (pyLower s)) with
        | true => simp only [normListLoop, hc, if_true]
        | false =>
          cases hl : dayMapping.lookup (pyStrip (pyLower s)) with
          | some d => simp only [normListLoop, hc, Bool.false_eq_true, if_false, hl]
                      exact ih _ ⟨j, hj2, hev⟩
          | none => simp only [normListLoop, hc, Bool.false_eq_true, if_false, hl]
                    exact ih _ ⟨j, hj2, hev⟩
      | day d => simp only [normListLoop]; exact ih _ ⟨j, hj2, hev⟩
      | other => simp only [normListLoop]; exact ih _ ⟨j, hj2, hev⟩

theorem dayMapping_key_not_everyday :
    ∀ p ∈ dayMapping, everydayVariants.contains p.1 = false := by decide

/-! ## Claim theorems -/

/-- C5: `normalize_day_of_week` maps null/empty input, every everyday synonym
(after lowercasing and trimming), and every scalar string matching neither a
synonym nor a day name/abbreviation to the full seven-day set; a scalar
matching a single day yields that singleton; and
`normalize_days("everyday") == normalize_days("daily") ==
normalize_days(["mon",…,"sun"])` == all seven days. -/
theorem c5_day_normalization :
    normalize_day_of_week .noneV = allSevenDays ∧
    normalize_day_of_week (.str "") = allSevenDays ∧
    (∀ s : String, everydayVariants.contains (pyStrip (pyLower s)) = true →
      normalize_day_of_week (.str s) = allSevenDays) ∧
    (∀ s : String, everydayVariants.contains (pyStrip (pyLower s)) = false →
      dayMapping.lookup (pyStrip (pyLower s)) = none →
      normalize_day_of_week (.str s) = allSevenDays) ∧
    (∀ (s : String) (d : PyDayOfWeek), dayMapping.lookup (pyStrip (pyLower s)) = some d →
      normalize_day_of_week (.str s) = [dayOfWeekValue d]) ∧
    normalize_day_of_week (.str "everyday") = normalize_day_of_week (.str "daily") ∧
    normalize_day_of_week (.str "daily") =
      normalize_day_of_week
        (.list [.str "mon", .str "tue", .str "wed", .str "thu", .str "fri",
                .str "sat", .str "sun"]) ∧
    normalize_day_of_week (.str "everyday") = allSevenDays := by
  refine ⟨rfl, rfl, ?_, ?_, ?_, by decide, by decide, by decide⟩
  · intro s h
    by_cases hs : s = ""
    · subst hs; exact absurd h (by decide)
    · simp only [normalize_day_of_week, if_neg hs, h, if_true]
  · intro s hc hl
    by_cases hs : s = ""
    · subst hs; rfl
    · simp only [normalize_day_of_week, if_neg hs, hc, Bool.false_eq_true, if_false, hl]
  · intro s d hl
    have hs : s ≠ "" := by
      intro hc
      subst hc
      rw [show dayMapping.lookup (pyStrip (pyLower "")) = none from by decide] at hl
      exact Option.noConfusion hl
    have hc : everydayVariants.contains (pyStrip (pyLower s)) = false :=
      dayMapping_key_not_everyday (pyStrip (pyLower s), d) (lookup_some_mem hl)
    simp only [normalize_day_of_week, if_neg hs, hc, Bool.false_eq_true, if_false, hl]

/-- C5 witness: concrete instances discharging each hypothesis of
`c5_day_normalization`. -/
theorem c5_day_normalization_witness :
    normalize_day_of_week (.str " All Week ") = allSevenDays ∧
    normalize_day_of_week (.str "next tuesday?") = allSevenDays ∧
    normalize_day_of_week (.str "Fri") = ["friday"] := by
  refine ⟨?_, ?_, ?_⟩
  · exact c5_day_normalization.2.2.1 " All Week " (by decide)
  · exact c5_day_normalization.2.2.2.1 "next tuesday?" (by decide) (by decide)
  · exact c5_day_normalization.2.2.2.2.1 "Fri" .friday (by decide)

/-- C6: for every string or list input the normalized day set is a non-empty
subset of the seven canonical days; the empty list and a list whose elements
all fail to parse fall back to all seven days; and any everyday-synonym element
short-circuits the whole list to all seven days. -/
theorem c6_day_set_invariant :
    (∀ s : String, normalize_day_of_week (.str s) ≠ [] ∧
      ∀ d ∈ normalize_day_of_week (.str s), d ∈ allSevenDays) ∧
    (∀ items : List DayInputItem, normalize_day_of_week (.list items) ≠ [] ∧
      ∀ d ∈ normalize_day_of_week (.list items), d ∈ allSevenDays) ∧
    normalize_day_of_week (.list []) = allSevenDays ∧
    (∀ items : List DayInputItem, (∀ i ∈ items, listItemFails i = true) →
      normalize_day_of_week (.list items) = allSevenDays) ∧
    (∀ items : List DayInputItem, (∃ i ∈ items, isEverydayItem i = true) →
      normalize_day_of_week (.list items) = allSevenDays) := by
  refine ⟨?_, ?_, rfl, ?_, ?_⟩
  · intro s
    by_cases hs : s = ""
    · subst hs
      exact ⟨by decide, by decide⟩
    · cases hc : everydayVariants.contains (pyStrip (pyLower s)) with
      | true =>
        simp only [normalize_day_of_week, if_neg hs, hc, if_true]
        exact ⟨by decide, by decide⟩
      | false =>
        cases hl : dayMapping.lookup (pyStrip (pyLower s)) with
        | some d =>
          simp only [normalize_day_of_week, if_neg hs, hc, Bool.false_eq_true, if_false, hl]
          refine ⟨by simp, ?_⟩
          intro x hx
          rcases List.mem_singleton.mp hx with rfl
          exact dayOfWeekValue_mem_allSevenDays d
        | none =>
          simp only [normalize_day_of_week, if_neg hs, hc, Bool.false_eq_true, if_false, hl]
          exact ⟨by decide, by decide⟩
  · intro items
    cases items with
    | nil => exact ⟨by decide, by decide⟩
    | cons i rest =>
      simp only [normalize_day_of_week]
      exact ⟨normListLoop_ne_nil _ _, normListLoop_mem _ _ (by simp)⟩
  · intro items hfail
    cases items with
    | nil => rfl
    | cons i rest =>
      simp only [normalize_day_of_week]
      rw [normListLoop_all_fail _ _ hfail]
      rfl
  · intro items hev
    cases items with
    | nil => simp at hev
    | cons i rest =>
      simp only [normalize_day_of_week]
      exact normListLoop_everyday _ _ hev

/-- C6 witness: concrete instances discharging each hypothesis of
`c6_day_set_invariant`. -/
theorem c6_day_set_invariant_witness :
    (normalize_day_of_week (.str "mon") ≠ [] ∧
      ∀ d ∈ normalize_day_of_week (.str "mon"), d ∈ allSevenDays) ∧
    (normalize_day_of_week (.list [.str "gibberish", .other]) ≠ [] ∧
      ∀ d ∈ normalize_day_of_week (.list [.str "gibberish", .other]), d ∈ allSevenDays) ∧
    normalize_day_of_week (.list [.str "gibberish", .other]) = allSevenDays ∧
    normalize_day_of_week (.list [.str "mon", .str " Daily "]) = allSevenDays := by
  refine ⟨c6_day_set_invariant.1 "mon", c6_day_set_invariant.2.1 _, ?_, ?_⟩
  · exact c6_day_set_invariant.2.2.2.1 [.str "gibberish", .other] (by decide)
  · refine c6_day_set_invariant.2.2.2.2 [.str "mon", .str " Daily "] ?_
    exact ⟨.str " Daily ", by decide, by decide⟩

/-- C10: `normalize_deal_data` is total on the price field — every input yields
either `None` or a decimal quantized to exactly two places (an integer
coefficient at exponent `-2`); `$` and `,` are stripped before parsing; the
placeholder values `"null"`, `"none"`, `"n/a"` and the empty string, and every
unparseable value, map to `None`. -/
theorem c10_price_normalization :
    (∀ raw : Option String, normalize_price raw = none ∨
      ∃ k : ℤ, normalize_price raw = some ⟨k, -2⟩) ∧
    normalize_price (some "$1,234.5") = some ⟨123450, -2⟩ ∧
    normalize_price (some " 12.50 ") = some ⟨1250, -2⟩ ∧
    normalize_price (some "null") = none ∧
    normalize_price (some "None") = none ∧
    normalize_price (some "N/A") = none ∧
    normalize_price (some "") = none ∧
    normalize_price (some "19.49.20") = none ∧
    normalize_price (some "market price") = none ∧
    normalize_price none = none := by
  refine ⟨?_, by decide, by decide, by decide, by decide, by decide, by decide,
    by decide, by decide, rfl⟩
  intro raw
  cases raw with
  | none => exact Or.inl rfl
  | some v =>
    simp only [normalize_price]
    split
    · exact Or.inl rfl
    · cases hp : parseDec (pyStrip (removeAll ',' (removeAll '$' v))) with
      | none => simp only [hp]; exact Or.inl trivial
      | some q =>
        simp only [hp, quantizeCents]
        split <;> split
        · exact Or.inr ⟨_, rfl⟩
        · exact Or.inl rfl
        · exact Or.inr ⟨_, rfl⟩
        · exact Or.inl rfl

/-- C9: second-pass link classification — a link with text "Tuesday Rump Night"
(href nonempty, not social/mail, not an image path) is accepted with
`link_type = text`; an image link whose href ends in `.jpg` and contains
"wings", with empty text, is accepted with `link_type = image` and its
`image_link` set to the href; a link whose visible text contains "steakhouse"
is always rejected. -/
theorem c9_link_classification :
    (∀ href : String, href ≠ "" →
      socialSubstrings.any (fun d => containsSub d href) = false →
      IMG_FILE_EXTENSIONS.any (fun ext => pyEndsWith href ext) = false →
      classify_second_pass_link (some href) "Tuesday Rump Night" =
        some ⟨"text", "tuesday rump night", none⟩) ∧
    (∀ href : String, pyEndsWith href ".jpg" = true →
      containsSub "wings" (pyLower href) = true →
      socialSubstrings.any (fun d => containsSub d href) = false →
      classify_second_pass_link (some href) "" = some ⟨"image", "", some href⟩) ∧
    (∀ (href : Option String) (rawText : String),
      containsSub "steakhouse" (pyStrip (pyLower rawText)) = true →
      classify_second_pass_link href rawText = none) := by
  refine ⟨?_, ?_, ?_⟩
  · intro href hne hsoc himg
    have h1 : decide (href ≠ "") = true := decide_eq_true hne
    have hkw : (DEAL_SPECIFIC_KEYWORDS.any
        (fun k => containsSub k (pyStrip (pyLower "Tuesday Rump Night"))) &&
        !(DEAL_SPECIFIC_BLACKLIST.any
          (fun k => containsSub k (pyStrip (pyLower "Tuesday Rump Night"))))) = true := by
      decide
    simp only [classify_second_pass_link, himg, Bool.false_eq_true, if_false, h1, hsoc,
      Bool.not_false, Bool.and_true, if_true, hkw]
    decide
  · intro href hjpg hwings hsoc
    have hsuf : ("jpg".toList <:+ href.toList) :=
      List.IsSuffix.trans (by decide) (of_decide_eq_true hjpg)
    have hany : IMG_FILE_EXTENSIONS.any (fun ext => pyEndsWith href ext) = true :=
      List.any_eq_true.mpr ⟨"jpg", by decide, decide_eq_true hsuf⟩
    have hne : decide (href ≠ "") = true := by
      refine decide_eq_true ?_
      intro hc
      subst hc
      rcases List.suffix_nil.mp hsuf
    have hkw1 : DEAL_SPECIFIC_KEYWORDS.any
        (fun k => containsSub k (pyStrip (pyLower ""))) = false := by decide
    have hkw2 : DEAL_SPECIFIC_KEYWORDS.any (fun k => containsSub k (pyLower href)) = true :=
      List.any_eq_true.mpr ⟨"wings", by decide, hwings⟩
    have hbl : DEAL_SPECIFIC_BLACKLIST.any
        (fun k => containsSub k (pyStrip (pyLower ""))) = false := by decide
    have htext : pyStrip (pyLower "") = "" := by decide
    simp only [classify_second_pass_link, hany, if_true, hne, hsoc, Bool.not_false,
      Bool.and_true, hkw1, Bool.false_and, Bool.false_eq_true, if_false, hkw2, hbl,
      htext, decide_True, Bool.true_and, Bool.and_self, if_true]
    simp [show (DEAL_SPECIFIC_KEYWORDS.any fun k => containsSub k "") = false from by decide,
      show (DEAL_SPECIFIC_BLACKLIST.any fun k => containsSub k "") = false from by decide]
  · intro href rawText hbl
    cases href with
    | none => rfl
    | some h =>
      have hblany : DEAL_SPECIFIC_BLACKLIST.any
          (fun k => containsSub k (pyStrip (pyLower rawText))) = true :=
        List.any_eq_true.mpr ⟨"steakhouse", by decide, hbl⟩
      simp only [classify_second_pass_link, hblany, Bool.not_true, Bool.and_false,
        Bool.false_eq_true, if_false, ite_self]

/-- C9 witness: the three classification rules at concrete links. -/
theorem c9_link_classification_witness :
    classify_second_pass_link (some "/whats-on/tuesday") "Tuesday Rump Night" =
      some ⟨"text", "tuesday rump night", none⟩ ∧
    classify_second_pass_link (some "/img/wings-deal.jpg") "" =
      some ⟨"image", "", some "/img/wings-deal.jpg"⟩ ∧
    classify_second_pass_link (some "/menu") "Our Steakhouse Menu" = none := by
  refine ⟨?_, ?_, ?_⟩
  · exact c9_link_classification.1 "/whats-on/tuesday" (by decide) (by decide) (by decide)
  · exact c9_link_classification.2.1 "/img/wings-deal.jpg" (by decide) (by decide) (by decide)
  · exact c9_link_classification.2.2 (some "/menu") "Our Steakhouse Menu" (by decide)

/-- C7 counterexample: when the text model's output fails to parse as JSON and
no image fallback applies, the extractor's `deal_info` is the all-null dict —
its `day_of_week` is null, not the claimed full seven-day set. -/
theorem c7_counterexample :
    ¬ (find_deal_details_deal_info none none "image/png" none =
      .obj ⟨none, none, .listF (allSevenDays.map .str)⟩) := by decide

/-- C7 amended: non-JSON model output is absorbed (modelled by the `none`
parse outcome of the `except json.decoder.JSONDecodeError` handler) and yields
`{dish: null, price: null, day_of_week: null}` — the seven-day default is
applied later by the schema's day normalizer, not here. -/
theorem c7_malformed_output_amended :
    extract_deal_details_from_text none = defaultDealJson ∧
    (∀ (ctype : String) (vision : Option DealJson),
      find_deal_details_deal_info none none ctype vision = .obj defaultDealJson) ∧
    (∀ (url ctype : String) (vision : Option DealJson),
      pyStartsWith url "https" = false → pyStartsWith url "http" = false →
      find_deal_details_deal_info none (some url) ctype vision = .obj defaultDealJson) := by
  refine ⟨rfl, fun _ _ => rfl, ?_⟩
  intro url ctype vision h1 h2
  simp only [find_deal_details_deal_info, extract_deal_details_from_text, Option.getD,
    dealJsonHasNone, defaultDealJson, Option.isNone_none, Bool.true_or, if_true,
    h1, h2, Bool.or_self, Bool.false_eq_true, if_false]

/-- C7 witness: a non-http image URL leaves the all-null text result in place. -/
theorem c7_malformed_output_amended_witness :
    find_deal_details_deal_info none (some "ftp://menu.jpg") "image/png"
      (some ⟨some "x", none, .noneF⟩) = .obj defaultDealJson :=
  c7_malformed_output_amended.2.2 "ftp://menu.jpg" "image/png"
    (some ⟨some "x", none, .noneF⟩) (by decide) (by decide)

/-- C8: evaluation of `_is_restaurant_open_now` on the hours line
"Friday: 10:00 PM – 2:00 AM".  The claim (and the posted hours) say the venue
is open Saturday 01:00; the code reports it closed, because `_day_matches`
gates the line on the current day name before `_is_time_in_range` ever sees the
overnight range — instead the code reports the venue open Friday 01:00, before
the window has ever started. -/
theorem c8_open_hours_eval :
    is_restaurant_open_now ["Friday: 10:00 PM – 2:00 AM"] (some ("Saturday", 1, 0)) = false ∧
    is_restaurant_open_now ["Friday: 10:00 PM – 2:00 AM"] (some ("Saturday", 3, 0)) = false ∧
    is_restaurant_open_now ["Friday: 10:00 PM – 2:00 AM"] (some ("Friday", 23, 0)) = true ∧
    is_restaurant_open_now ["Friday: 10:00 PM – 2:00 AM"] (some ("Friday", 1, 0)) = true := by
  decide

theorem foldl_step_spec (E : List DynDeal) (now : String) (gen : Nat → String) :
    ∀ (N : List NormDeal) (st : LoopState),
      (N.foldl (stepCandidate E now gen) st).new_deals =
        st.new_deals ++ createdList E now gen st.new_deals.length N ∧
      (N.foldl (stepCandidate E now gen) st).updated_deals =
        st.updated_deals ++ updatedList E now N ∧
      (N.foldl (stepCandidate E now gen) st).matched_ids =
        st.matched_ids ++ matchedList E N := by
  intro N
  induction N with
  | nil =>
    intro st
    simp [createdList, updatedList, matchedList]
  | cons c cs ih =>
    intro st
    rw [List.foldl_cons]
    cases hf : E.find? (fun e => deals_match c e) with
    | some e =>
      cases hu : deal_needs_update c e with
      | true =>
        have hstep : stepCandidate E now gen st c =
            { new_deals := st.new_deals,
              updated_deals := st.updated_deals ++ [applyUpdate e c now],
              matched_ids := st.matched_ids ++ [e.uuid] } := by
          simp [stepCandidate, hf, hu]
        rw [hstep]
        obtain ⟨h1, h2, h3⟩ :=
          ih ⟨st.new_deals, st.updated_deals ++ [applyUpdate e c now],
            st.matched_ids ++ [e.uuid]⟩
        refine ⟨?_, ?_, ?_⟩
        · rw [h1]
          simp [createdList, hf]
        · rw [h2]
          simp [updatedList, List.append_assoc, hf, hu]
        · rw [h3]
          simp [matchedList, List.append_assoc, hf]
      | false =>
        have hstep : stepCandidate E now gen st c =
            { new_deals := st.new_deals,
              updated_deals := st.updated_deals,
              matched_ids := st.matched_ids ++ [e.uuid] } := by
          simp [stepCandidate, hf, hu]
        rw [hstep]
        obtain ⟨h1, h2, h3⟩ :=
          ih ⟨st.new_deals, st.updated_deals, st.matched_ids ++ [e.uuid]⟩
        refine ⟨?_, ?_, ?_⟩
        · rw [h1]
          simp [createdList, hf]
        · rw [h2]
          simp [updatedList, hf, hu]
        · rw [h3]
          simp [matchedList, List.append_assoc, hf]
    | none =>
      have hstep : stepCandidate E now gen st c =
          { new_deals := st.new_deals ++ [mkNewDeal c (gen st.new_deals.length) now],
            updated_deals := st.updated_deals,
            matched_ids := st.matched_ids } := by
        simp [stepCandidate, hf]
      rw [hstep]
      obtain ⟨h1, h2, h3⟩ :=
        ih ⟨st.new_deals ++ [mkNewDeal c (gen st.new_deals.length) now],
          st.updated_deals, st.matched_ids⟩
      refine ⟨?_, ?_, ?_⟩
      · rw [h1]
        simp [createdList, hf, List.append_assoc]
      · rw [h2]
        simp [updatedList, hf]
      · rw [h3]
        simp [matchedList, hf]

theorem save_deals_eq (deals : List RawDeal) (E : List DynDeal) (rid now : String)
    (gen : Nat → String) (hne : deals ≠ []) :
    save_deals deals E rid now gen =
      { new_deals := createdList E now gen 0
          ((deals.filter rawDishTruthy).map (fun d => normalize_deal_data d rid)),
        updated_deals := updatedList E now
          ((deals.filter rawDishTruthy).map (fun d => normalize_deal_data d rid)),
        obsolete_deals := (E.filter (fun e => !(decide (e.uuid ∈ matchedList E
          ((deals.filter rawDishTruthy).map (fun d => normalize_deal_data d rid)))))).map
          (applyObsolete now),
        matched_ids := matchedList E
          ((deals.filter rawDishTruthy).map (fun d => normalize_deal_data d rid)) } := by
  have hni : deals.isEmpty = false := by
    cases deals with
    | nil => exact absurd rfl hne
    | cons a l => rfl
  obtain ⟨h1, h2, h3⟩ := foldl_step_spec E now gen
    ((deals.filter rawDishTruthy).map (fun d => normalize_deal_data d rid))
    ⟨[], [], []⟩
  simp only [save_deals, hni, Bool.false_eq_true, if_false]
  simp only [h1, h2, h3, List.nil_append, List.length_nil]

/-- C3 counterexample: with an empty candidate list, `save_deals` returns
before the obsoletion sweep — an active stored deal matched by nothing is NOT
soft-deleted and survives unchanged, refuting the claim for the empty list. -/
theorem c3_counterexample :
    (save_deals [] [exDealParma] "r1" "t1" exGen).obsolete_deals = [] ∧
    applyState [exDealParma] (save_deals [] [exDealParma] "r1" "t1" exGen) = [exDealParma] ∧
    exDealParma.is_deleted = false := by decide

/-- C3 amended: for every reconciliation pass over a NON-EMPTY candidate list,
every existing deal whose id is matched by no candidate is soft-deleted
(`is_deleted = true`, `deleted_at = updated_at = now`), and no deal is ever
hard-deleted: after the batch write every existing row still has a row with
its uuid in the table. -/
theorem c3_soft_delete_amended (deals : List RawDeal) (E : List DynDeal)
    (rid now : String) (gen : Nat → String) (hne : deals ≠ []) :
    (∀ e ∈ E, e.uuid ∉ (save_deals deals E rid now gen).matched_ids →
      applyObsolete now e ∈ (save_deals deals E rid now gen).obsolete_deals) ∧
    (∀ e ∈ E, ∃ d ∈ applyState E (save_deals deals E rid now gen), d.uuid = e.uuid) := by
  constructor
  · intro e he hm
    rw [save_deals_eq deals E rid now gen hne] at hm ⊢
    refine List.mem_map.mpr ⟨e, List.mem_filter.mpr ⟨he, ?_⟩, rfl⟩
    simpa using hm
  · intro e he
    simp only [applyState]
    refine ⟨_, List.mem_append.mpr (Or.inl (List.mem_map.mpr ⟨e, he, rfl⟩)), ?_⟩
    cases hfind : ((save_deals deals E rid now gen).updated_deals ++
        (save_deals deals E rid now gen).obsolete_deals).find?
        (fun u => decide (u.uuid = e.uuid)) with
    | none => simp [hfind]
    | some u =>
      simp only [hfind, Option.getD_some]
      have hp := List.find?_some hfind
      simp only [decide_eq_true_eq] at hp
      exact hp

/-- C3 witness: a non-empty scrape that matches nothing soft-deletes the one
stored deal, which keeps a row in the table. -/
theorem c3_soft_delete_amended_witness :
    applyObsolete "t1" exDealParma ∈
      (save_deals [exRawWings] [exDealParma] "r1" "t1" exGen).obsolete_deals ∧
    ∃ d ∈ applyState [exDealParma] (save_deals [exRawWings] [exDealParma] "r1" "t1" exGen),
      d.uuid = exDealParma.uuid := by
  refine ⟨(c3_soft_delete_amended [exRawWings] [exDealParma] "r1" "t1" exGen
      (by decide)).1 exDealParma (by decide) (by decide),
    (c3_soft_delete_amended [exRawWings] [exDealParma] "r1" "t1" exGen
      (by decide)).2 exDealParma (by decide)⟩

/-- C4 counterexample: a candidate matching a stored deal with equal price but
different notes triggers NO write at all — `deal_needs_update` never looks at
notes, refuting "if either [price or notes] differs it performs an update". -/
theorem c4_counterexample :
    deals_match (normalize_deal_data exRawNotes "r1") exDealNotes = true ∧
    (normalize_deal_data exRawNotes "r1").notes ≠ exDealNotes.notes ∧
    (save_deals [exRawNotes] [exDealNotes] "r1" "t1" exGen).updated_deals = [] ∧
    (save_deals [exRawNotes] [exDealNotes] "r1" "t1" exGen).new_deals = [] ∧
    (save_deals [exRawNotes] [exDealNotes] "r1" "t1" exGen).obsolete_deals = [] ∧
    applyState [exDealNotes] (save_deals [exRawNotes] [exDealNotes] "r1" "t1" exGen) =
      [exDealNotes] := by decide

/-- C4 amended: when a candidate matches an existing deal by key, reconcile
compares only `price` (numeric decimal equality; notes are never consulted).
If the price differs, the one write mutates only `price` and sets
`updated_at = now`, leaving id, restaurant_id, dish, day_of_week, notes,
created_at, is_deleted and deleted_at unchanged; if the prices are equal no
write occurs for that deal. -/
theorem c4_update_frame_amended (raw : RawDeal) (E : List DynDeal) (rid now : String)
    (gen : Nat → String) (e : DynDeal)
    (htruthy : rawDishTruthy raw = true)
    (hfind : E.find? (fun x => deals_match (normalize_deal_data raw rid) x) = some e) :
    (∀ e' : DynDeal, e'.price = e.price →
      deal_needs_update (normalize_deal_data raw rid) e' =
        deal_needs_update (normalize_deal_data raw rid) e) ∧
    (deal_needs_update (normalize_deal_data raw rid) e = true →
      (save_deals [raw] E rid now gen).updated_deals =
        [{ e with price := (normalize_deal_data raw rid).price, updated_at := some now }] ∧
      (save_deals [raw] E rid now gen).new_deals = []) ∧
    (deal_needs_update (normalize_deal_data raw rid) e = false →
      (save_deals [raw] E rid now gen).updated_deals = [] ∧
      (save_deals [raw] E rid now gen).new_deals = []) := by
  have hne : ([raw] : List RawDeal) ≠ [] := List.cons_ne_nil raw []
  refine ⟨?_, ?_, ?_⟩
  · intro e' he'
    simp [deal_needs_update, he']
  · intro hu
    rw [save_deals_eq _ _ _ _ _ hne]
    constructor
    · simp [updatedList, List.filter_cons, htruthy, hfind, hu, applyUpdate]
    · simp [createdList, List.filter_cons, htruthy, hfind]
  · intro hu
    rw [save_deals_eq _ _ _ _ _ hne]
    constructor
    · simp [updatedList, List.filter_cons, htruthy, hfind, hu]
    · simp [createdList, List.filter_cons, htruthy, hfind]

/-- C4 witness: a price change updates exactly price and `updated_at`; an
equal-price match (with different notes) writes nothing. -/
theorem c4_update_frame_amended_witness :
    (save_deals [exRawRump] [exDealRump] "r1" "t1" exGen).updated_deals =
      [{ exDealRump with price := (normalize_deal_data exRawRump "r1").price, updated_at := some "t1" }] ∧
    (save_deals [exRawRump] [exDealRump] "r1" "t1" exGen).new_deals = [] ∧
    (save_deals [exRawNotes] [exDealNotes] "r1" "t1" exGen).updated_deals = [] := by
  refine ⟨?_, ?_, ?_⟩
  · exact ((c4_update_frame_amended exRawRump [exDealRump] "r1" "t1" exGen exDealRump
      (by decide) (by decide)).2.1 (by decide)).1
  · exact ((c4_update_frame_amended exRawRump [exDealRump] "r1" "t1" exGen exDealRump
      (by decide) (by decide)).2.1 (by decide)).2
  · exact ((c4_update_frame_amended exRawNotes [exDealNotes] "r1" "t1" exGen exDealNotes
      (by decide) (by decide)).2.2 (by decide)).1

/-- C1: for existing active deals `[A, B]` and candidates `[A', C]`, where `A'`
matches `A`'s key with a changed price and `C` matches nothing, one pass
produces exactly one update (A with the new price and `updated_at = now`), one
obsoletion (B soft-deleted with `deleted_at = updated_at = now`) and one
creation (C with a fresh generated id and `is_deleted = false`). -/
theorem c1_reconciliation_completeness (rawA rawC : RawDeal) (A B : DynDeal)
    (rid now : String) (gen : Nat → String)
    (hA : rawDishTruthy rawA = true) (hC : rawDishTruthy rawC = true)
    (hmatch : deals_match (normalize_deal_data rawA rid) A = true)
    (hupd : deal_needs_update (normalize_deal_data rawA rid) A = true)
    (hCA : deals_match (normalize_deal_data rawC rid) A = false)
    (hCB : deals_match (normalize_deal_data rawC rid) B = false)
    (huuid : A.uuid ≠ B.uuid) :
    (save_deals [rawA, rawC] [A, B] rid now gen).updated_deals =
      [{ A with price := (normalize_deal_data rawA rid).price, updated_at := some now }] ∧
    (save_deals [rawA, rawC] [A, B] rid now gen).obsolete_deals =
      [{ B with is_deleted := true, deleted_at := some now, updated_at := some now }] ∧
    (save_deals [rawA, rawC] [A, B] rid now gen).new_deals =
      [mkNewDeal (normalize_deal_data rawC rid) (gen 0) now] ∧
    (mkNewDeal (normalize_deal_data rawC rid) (gen 0) now).is_deleted = false ∧
    (mkNewDeal (normalize_deal_data rawC rid) (gen 0) now).uuid = gen 0 ∧
    (save_deals [rawA, rawC] [A, B] rid now gen).updated_deals.length = 1 ∧
    (save_deals [rawA, rawC] [A, B] rid now gen).new_deals.length = 1 ∧
    (save_deals [rawA, rawC] [A, B] rid now gen).obsolete_deals.length = 1 := by
  have hne : ([rawA, rawC] : List RawDeal) ≠ [] := List.cons_ne_nil rawA [rawC]
  have hfA : [A, B].find? (fun e => deals_match (normalize_deal_data rawA rid) e) = some A := by
    simp [List.find?, hmatch]
  have hfC : [A, B].find? (fun e => deals_match (normalize_deal_data rawC rid) e) = none := by
    simp [List.find?, hCA, hCB]
  rw [save_deals_eq _ _ _ _ _ hne]
  have hBA : B.uuid ≠ A.uuid := Ne.symm huuid
  refine ⟨?_, ?_, ?_, rfl, rfl, ?_, ?_, ?_⟩ <;>
    simp [updatedList, createdList, matchedList, List.filter_cons, hA, hC, hfA, hfC, hupd,
      applyUpdate, applyObsolete, hBA]

/-- C1 witness: the scenario at concrete deals. -/
theorem c1_reconciliation_completeness_witness :
    (save_deals [exRawRump, exRawWings] [exDealRump, exDealParma] "r1" "t1" exGen).updated_deals =
      [{ exDealRump with price := (normalize_deal_data exRawRump "r1").price, updated_at := some "t1" }] ∧
    (save_deals [exRawRump, exRawWings] [exDealRump, exDealParma] "r1" "t1" exGen).obsolete_deals =
      [{ exDealParma with is_deleted := true, deleted_at := some "t1", updated_at := some "t1" }] ∧
    (save_deals [exRawRump, exRawWings] [exDealRump, exDealParma] "r1" "t1" exGen).new_deals =
      [mkNewDeal (normalize_deal_data exRawWings "r1") (exGen 0) "t1"] := by
  have h := c1_reconciliation_completeness exRawRump exRawWings exDealRump exDealParma
    "r1" "t1" exGen (by decide) (by decide) (by decide) (by decide) (by decide) (by decide)
    (by decide)
  exact ⟨h.1, h.2.1, h.2.2.1⟩

/-- C2 counterexample: two candidates sharing one matching key at different
prices break idempotence — the first run creates both, the second run finds
both candidates matching the first created row (updating it) and obsoletes the
second, so the second run is not a no-op. -/
theorem c2_counterexample :
    ¬ ((save_deals [exRawDupA, exRawDupB]
          (activeDealsFor "r"
            (applyState [] (save_deals [exRawDupA, exRawDupB] [] "r" "t1" exGen)))
          "r" "t2" exGen).new_deals = [] ∧
       (save_deals [exRawDupA, exRawDupB]
          (activeDealsFor "r"
            (applyState [] (save_deals [exRawDupA, exRawDupB] [] "r" "t1" exGen)))
          "r" "t2" exGen).updated_deals = [] ∧
       (save_deals [exRawDupA, exRawDupB]
          (activeDealsFor "r"
            (applyState [] (save_deals [exRawDupA, exRawDupB] [] "r" "t1" exGen)))
          "r" "t2" exGen).obsolete_deals = []) := by decide

theorem listSetEq_iff (a b : List DayTok) :
    listSetEq a b = true ↔ a.toFinset = b.toFinset := by
  simp only [listSetEq, Bool.and_eq_true, decide_eq_true_eq]
  constructor
  · rintro ⟨h1, h2⟩
    apply Finset.ext
    intro x
    simp only [List.mem_toFinset]
    exact ⟨fun hx => h1 x hx, fun hx => h2 x hx⟩
  · intro h
    constructor <;> intro x hx
    · have : x ∈ a.toFinset := List.mem_toFinset.mpr hx
      rw [h] at this
      exact List.mem_toFinset.mp this
    · have : x ∈ b.toFinset := List.mem_toFinset.mpr hx
      rw [← h] at this
      exact List.mem_toFinset.mp this

theorem deals_match_iff (c : NormDeal) (e : DynDeal) :
    deals_match c e = true ↔ keyOfNorm c = keyOfDeal e := by
  simp only [deals_match, Bool.and_eq_true, decide_eq_true_eq, listSetEq_iff,
    keyOfNorm, keyOfDeal, Prod.mk.injEq]

theorem lowerTok_idem (t : DayTok) : lowerTok (lowerTok t) = lowerTok t := by
  cases t with
  | str s => simp [lowerTok, pyLower_idem]
  | raw n => rfl

theorem normalize_days_lowered (raw : RawDeal) (rid : String) :
    ∀ t ∈ (normalize_deal_data raw rid).day_of_week, lowerTok t = t := by
  intro t ht
  simp only [normalize_deal_data] at ht
  cases hw : raw.day_of_week with
  | noneF => rw [hw] at ht; simp at ht
  | strF s =>
    rw [hw] at ht
    rcases List.mem_singleton.mp ht with rfl
    simp [lowerTok, pyLower_idem]
  | listF l =>
    rw [hw] at ht
    rcases List.mem_map.mp ht with ⟨u, _, rfl⟩
    exact lowerTok_idem u

theorem keyOfDeal_mkNewDeal (c : NormDeal) (u now : String)
    (hlow : ∀ t ∈ c.day_of_week, lowerTok t = t) :
    keyOfDeal (mkNewDeal c u now) = keyOfNorm c := by
  simp only [keyOfDeal, keyOfNorm, mkNewDeal, existingDays]
  have : c.day_of_week.map lowerTok = c.day_of_week := by
    rw [List.map_congr_left hlow]
    simp
  rw [this]

theorem keyOfDeal_applyUpdate (e : DynDeal) (c : NormDeal) (now : String) :
    keyOfDeal (applyUpdate e c now) = keyOfDeal e := rfl

theorem find?_eq_some_of_unique {α : Type} {p : α → Bool} {l : List α} {a : α}
    (ha : a ∈ l) (hpa : p a = true) (huniq : ∀ b ∈ l, p b = true → b = a) :
    l.find? p = some a := by
  induction l with
  | nil => simp at ha
  | cons x xs ih =>
    rcases List.mem_cons.mp ha with rfl | ha'
    · simp [List.find?, hpa]
    · cases hpx : p x with
      | true =>
        have := huniq x (List.mem_cons_self x xs) hpx
        subst this
        simp [List.find?, hpx]
      | false =>
        simp only [List.find?, hpx]
        exact ih ha' (fun b hb hpb => huniq b (List.mem_cons_of_mem x hb) hpb)

theorem key_unique_in (N : List NormDeal)
    (hkeys : N.Pairwise (fun a b => keyOfNorm a ≠ keyOfNorm b)) :
    ∀ c ∈ N, ∀ c' ∈ N, keyOfNorm c = keyOfNorm c' → c = c' := by
  induction N with
  | nil => intro c hc; simp at hc
  | cons a t ih =>
    rcases List.pairwise_cons.mp hkeys with ⟨hh, ht⟩
    intro c hc c' hc' hk
    rcases List.mem_cons.mp hc with rfl | hc2
    · rcases List.mem_cons.mp hc' with rfl | hc2'
      · rfl
      · exact absurd hk (hh c' hc2')
    · rcases List.mem_cons.mp hc' with rfl | hc2'
      · exact absurd hk.symm (hh c hc2)
      · exact ih ht c hc2 c' hc2' hk

theorem mem_updatedList {E : List DynDeal} {now : String} {N : List NormDeal} {u : DynDeal} :
    u ∈ updatedList E now N ↔
      ∃ c ∈ N, ∃ e, E.find? (fun x => deals_match c x) = some e ∧
        deal_needs_update c e = true ∧ u = applyUpdate e c now := by
  simp only [updatedList, List.mem_filterMap]
  constructor
  · rintro ⟨c, hc, hf⟩
    cases hfe : E.find? (fun x => deals_match c x) with
    | none => rw [hfe] at hf; simp at hf
    | some e =>
      rw [hfe] at hf
      have hf2 : (if deal_needs_update c e = true then some (applyUpdate e c now)
          else none) = some u := hf
      cases hu : deal_needs_update c e with
      | false => rw [hu] at hf2; simp at hf2
      | true =>
        rw [hu] at hf2
        simp only [if_true] at hf2
        exact ⟨c, hc, e, hfe, hu, (Option.some.injEq _ _ ▸ hf2).symm⟩
  · rintro ⟨c, hc, e, hfe, hu, rfl⟩
    exact ⟨c, hc, by simp [hfe, hu]⟩

theorem mem_matchedList {E : List DynDeal} {N : List NormDeal} {x : String} :
    x ∈ matchedList E N ↔
      ∃ c ∈ N, ∃ e, E.find? (fun y => deals_match c y) = some e ∧ x = e.uuid := by
  simp only [matchedList, List.mem_filterMap]
  constructor
  · rintro ⟨c, hc, hf⟩
    cases hfe : E.find? (fun y => deals_match c y) with
    | none => rw [hfe] at hf; simp at hf
    | some e =>
      rw [hfe] at hf
      have hf2 : some e.uuid = some x := hf
      exact ⟨c, hc, e, hfe, (Option.some.injEq _ _ ▸ hf2).symm⟩
  · rintro ⟨c, hc, e, hfe, rfl⟩
    exact ⟨c, hc, by simp [hfe]⟩

theorem mem_createdList {E : List DynDeal} {now : String} {gen : Nat → String}
    {N : List NormDeal} {b : DynDeal} :
    ∀ {k : Nat}, b ∈ createdList E now gen k N →
      ∃ c ∈ N, E.find? (fun x => deals_match c x) = none ∧
        ∃ j, b = mkNewDeal c (gen j) now := by
  induction N with
  | nil => intro k hb; simp [createdList] at hb
  | cons c cs ih =>
    intro k hb
    cases hf : E.find? (fun x => deals_match c x) with
    | some e =>
      rw [createdList, hf] at hb
      rcases ih hb with ⟨c', hc', hf', j, rfl⟩
      exact ⟨c', List.mem_cons_of_mem c hc', hf', j, rfl⟩
    | none =>
      rw [createdList, hf] at hb
      rcases List.mem_cons.mp hb with rfl | hb'
      · exact ⟨c, List.mem_cons_self c cs, hf, k, rfl⟩
      · rcases ih hb' with ⟨c', hc', hf', j, rfl⟩
        exact ⟨c', List.mem_cons_of_mem c hc', hf', j, rfl⟩

theorem created_of_no_match {E : List DynDeal} {now : String} {gen : Nat → String}
    {N : List NormDeal} {c : NormDeal} (hc : c ∈ N)
    (hf : E.find? (fun x => deals_match c x) = none) :
    ∀ k, ∃ j, mkNewDeal c (gen j) now ∈ createdList E now gen k N := by
  induction N with
  | nil => simp at hc
  | cons a t ih =>
    intro k
    rcases List.mem_cons.mp hc with rfl | hc'
    · rw [createdList, hf]
      exact ⟨k, List.mem_cons_self _ _⟩
    · cases hfa : E.find? (fun x => deals_match a x) with
      | some e =>
        rw [createdList, hfa]
        exact ih hc' k
      | none =>
        rw [createdList, hfa]
        rcases ih hc' (k + 1) with ⟨j, hj⟩
        exact ⟨j, List.mem_cons_of_mem _ hj⟩

theorem createdList_eq_nil {E : List DynDeal} {now : String} {gen : Nat → String}
    {N : List NormDeal} (h : ∀ c ∈ N, (E.find? (fun x => deals_match c x)).isSome) :
    ∀ k, createdList E now gen k N = [] := by
  induction N with
  | nil => intro k; rfl
  | cons c cs ih =>
    intro k
    cases hf : E.find? (fun x => deals_match c x) with
    | some e =>
      rw [createdList, hf]
      exact ih (fun c' hc' => h c' (List.mem_cons_of_mem c hc')) k
    | none =>
      have := h c (List.mem_cons_self c cs)
      rw [hf] at this
      simp at this

theorem pyDecimalEq_refl (x : PyDecimal) : pyDecimalEq x x = true := by
  simp [pyDecimalEq]

theorem needs_update_of_price_eq {c : NormDeal} {a : DynDeal} (h : a.price = c.price) :
    deal_needs_update c a = false := by
  rw [deal_needs_update, h]
  cases c.price with
  | none => rfl
  | some x => simp [pyDecimalEq_refl]

theorem createdList_key_unique {E : List DynDeal} {now : String} {gen : Nat → String}
    {N : List NormDeal}
    (hkeys : N.Pairwise (fun a b => keyOfNorm a ≠ keyOfNorm b))
    (hlowN : ∀ c ∈ N, ∀ t ∈ c.day_of_week, lowerTok t = t) :
    ∀ k, ∀ b1 ∈ createdList E now gen k N, ∀ b2 ∈ createdList E now gen k N,
      keyOfDeal b1 = keyOfDeal b2 → b1 = b2 := by
  induction N with
  | nil => intro k b1 hb1; simp [createdList] at hb1
  | cons c cs ih =>
    rcases List.pairwise_cons.mp hkeys with ⟨hh, ht⟩
    have hlow' : ∀ c' ∈ cs, ∀ t ∈ c'.day_of_week, lowerTok t = t :=
      fun c' hc' => hlowN c' (List.mem_cons_of_mem c hc')
    intro k b1 hb1 b2 hb2 hk12
    cases hf : E.find? (fun x => deals_match c x) with
    | some e =>
      rw [createdList, hf] at hb1 hb2
      exact ih ht hlow' k b1 hb1 b2 hb2 hk12
    | none =>
      rw [createdList, hf] at hb1 hb2
      rcases List.mem_cons.mp hb1 with rfl | hb1'
      · rcases List.mem_cons.mp hb2 with rfl | hb2'
        · rfl
        · rcases mem_createdList hb2' with ⟨c3, hc3, _, j, rfl⟩
          have h1 := keyOfDeal_mkNewDeal c (gen k) now (hlowN c (List.mem_cons_self c cs))
          have h2 := keyOfDeal_mkNewDeal c3 (gen j) now (hlow' c3 hc3)
          rw [h1, h2] at hk12
          exact absurd hk12 (hh c3 hc3)
      · rcases List.mem_cons.mp hb2 with rfl | hb2'
        · rcases mem_createdList hb1' with ⟨c3, hc3, _, j, rfl⟩
          have h1 := keyOfDeal_mkNewDeal c3 (gen j) now (hlow' c3 hc3)
          have h2 := keyOfDeal_mkNewDeal c (gen k) now (hlowN c (List.mem_cons_self c cs))
          rw [h1, h2] at hk12
          exact absurd hk12.symm (hh c3 hc3)
        · exact ih ht hlow' (k + 1) b1 hb1' b2 hb2' hk12

theorem g_spec (E : List DynDeal) (N : List NormDeal) (now : String)
    (hnodup : (E.map DynDeal.uuid).Nodup)
    (hkeysu : ∀ c ∈ N, ∀ c' ∈ N, keyOfNorm c = keyOfNorm c' → c = c')
    (e : DynDeal) (he : e ∈ E) :
    (∀ c ∈ N, E.find? (fun x => deals_match c x) = some e →
      ((updatedList E now N ++
        (E.filter (fun x => !(decide (x.uuid ∈ matchedList E N)))).map
          (applyObsolete now)).find? (fun u => decide (u.uuid = e.uuid))).getD e =
        (if deal_needs_update c e = true then applyUpdate e c now else e)) ∧
    ((¬ ∃ c ∈ N, E.find? (fun x => deals_match c x) = some e) →
      ((updatedList E now N ++
        (E.filter (fun x => !(decide (x.uuid ∈ matchedList E N)))).map
          (applyObsolete now)).find? (fun u => decide (u.uuid = e.uuid))).getD e =
        applyObsolete now e) := by
  have hinj : ∀ a ∈ E, ∀ b ∈ E, a.uuid = b.uuid → a = b :=
    fun a ha b hb h => List.inj_on_of_nodup_map hnodup ha hb h
  constructor
  · intro c hc hfc
    cases hu : deal_needs_update c e with
    | true =>
      have hfind : (updatedList E now N ++
          (E.filter (fun x => !(decide (x.uuid ∈ matchedList E N)))).map
            (applyObsolete now)).find? (fun u => decide (u.uuid = e.uuid)) =
          some (applyUpdate e c now) := by
        apply find?_eq_some_of_unique
        · exact List.mem_append.mpr (Or.inl (mem_updatedList.mpr ⟨c, hc, e, hfc, hu, rfl⟩))
        · exact decide_eq_true rfl
        · intro b hb hpb
          have hbe : b.uuid = e.uuid := of_decide_eq_true hpb
          rcases List.mem_append.mp hb with hbU | hbO
          · rcases mem_updatedList.mp hbU with ⟨c', hc', e', hf', hu', rfl⟩
            have hee : e' = e := hinj e' (List.mem_of_find?_eq_some hf') e he hbe
            subst hee
            have hcc : c' = c := hkeysu c' hc' c hc
              (((deals_match_iff _ _).mp (List.find?_some hf')).trans
                ((deals_match_iff _ _).mp (List.find?_some hfc)).symm)
            subst hcc
            rfl
          · rcases List.mem_map.mp hbO with ⟨e2, hef, rfl⟩
            rcases List.mem_filter.mp hef with ⟨heE, hcond⟩
            have hee : e2 = e := hinj e2 heE e he hbe
            subst hee
            have hxm : e2.uuid ∈ matchedList E N := mem_matchedList.mpr ⟨c, hc, e2, hfc, rfl⟩
            simp [hxm] at hcond
      rw [hfind]
      simp [hu]
    | false =>
      have hfind : (updatedList E now N ++
          (E.filter (fun x => !(decide (x.uuid ∈ matchedList E N)))).map
            (applyObsolete now)).find? (fun u => decide (u.uuid = e.uuid)) = none := by
        rw [List.find?_eq_none]
        intro b hb hpb
        have hbe : b.uuid = e.uuid := of_decide_eq_true hpb
        rcases List.mem_append.mp hb with hbU | hbO
        · rcases mem_updatedList.mp hbU with ⟨c', hc', e', hf', hu', rfl⟩
          have hee : e' = e := hinj e' (List.mem_of_find?_eq_some hf') e he hbe
          subst hee
          have hcc : c' = c := hkeysu c' hc' c hc
            (((deals_match_iff _ _).mp (List.find?_some hf')).trans
              ((deals_match_iff _ _).mp (List.find?_some hfc)).symm)
          subst hcc
          rw [hu] at hu'
          exact Bool.noConfusion hu'
        · rcases List.mem_map.mp hbO with ⟨e2, hef, rfl⟩
          rcases List.mem_filter.mp hef with ⟨heE, hcond⟩
          have hee : e2 = e := hinj e2 heE e he hbe
          subst hee
          have hxm : e2.uuid ∈ matchedList E N := mem_matchedList.mpr ⟨c, hc, e2, hfc, rfl⟩
          simp [hxm] at hcond
      rw [hfind]
      simp [hu]
  · intro hnm
    have hm : e.uuid ∉ matchedList E N := by
      intro hx
      rcases mem_matchedList.mp hx with ⟨c, hc, e', hf', hxe⟩
      have hee : e' = e := hinj e' (List.mem_of_find?_eq_some hf') e he hxe.symm
      subst hee
      exact hnm ⟨c, hc, hf'⟩
    have hfind : (updatedList E now N ++
        (E.filter (fun x => !(decide (x.uuid ∈ matchedList E N)))).map
          (applyObsolete now)).find? (fun u => decide (u.uuid = e.uuid)) =
        some (applyObsolete now e) := by
      apply find?_eq_some_of_unique
      · refine List.mem_append.mpr
          (Or.inr (List.mem_map.mpr ⟨e, List.mem_filter.mpr ⟨he, ?_⟩, rfl⟩))
        simp [hm]
      · exact decide_eq_true rfl
      · intro b hb hpb
        have hbe : b.uuid = e.uuid := of_decide_eq_true hpb
        rcases List.mem_append.mp hb with hbU | hbO
        · rcases mem_updatedList.mp hbU with ⟨c', hc', e', hf', hu', rfl⟩
          have hee : e' = e := hinj e' (List.mem_of_find?_eq_some hf') e he hbe
          subst hee
          exact absurd ⟨c', hc', hf'⟩ hnm
        · rcases List.mem_map.mp hbO with ⟨e2, hef, rfl⟩
          have hee : e2 = e := hinj e2 (List.mem_filter.mp hef).1 e he hbe
          subst hee
          rfl
    rw [hfind]
    rfl

/-- C2 amended: reconciliation is idempotent provided the normalized candidates
have pairwise-distinct matching keys and the stored deals carry distinct ids
(both hold in normal operation; the counterexample shows duplicate-key
candidate lists break it).  A second pass with the identical candidate list
against the state written by the first pass performs zero creates, zero
updates and zero obsoletions. -/
theorem c2_idempotence_amended (deals : List RawDeal) (E : List DynDeal)
    (rid now1 now2 : String) (gen1 gen2 : Nat → String)
    (hne : deals ≠ [])
    (hact : ∀ e ∈ E, e.is_deleted = false)
    (hrid : ∀ e ∈ E, e.restaurant_id = rid)
    (hnodup : (E.map DynDeal.uuid).Nodup)
    (hkeys : ((deals.filter rawDishTruthy).map (fun d => normalize_deal_data d rid)).Pairwise
      (fun a b => keyOfNorm a ≠ keyOfNorm b)) :
    (save_deals deals (activeDealsFor rid (applyState E (save_deals deals E rid now1 gen1)))
      rid now2 gen2).new_deals = [] ∧
    (save_deals deals (activeDealsFor rid (applyState E (save_deals deals E rid now1 gen1)))
      rid now2 gen2).updated_deals = [] ∧
    (save_deals deals (activeDealsFor rid (applyState E (save_deals deals E rid now1 gen1)))
      rid now2 gen2).obsolete_deals = [] := by
  set N := (deals.filter rawDishTruthy).map (fun d => normalize_deal_data d rid) with hNdef
  have hkeysu := key_unique_in N hkeys
  have hlowN : ∀ c ∈ N, ∀ t ∈ c.day_of_week, lowerTok t = t := by
    intro c hc
    rcases List.mem_map.mp hc with ⟨d, _, rfl⟩
    exact normalize_days_lowered d rid
  have hridN : ∀ c ∈ N, c.restaurant_id = rid := by
    intro c hc
    rcases List.mem_map.mp hc with ⟨d, _, rfl⟩
    rfl
  have hr1 := save_deals_eq deals E rid now1 gen1 hne
  set A1 := activeDealsFor rid (applyState E (save_deals deals E rid now1 gen1)) with hA1def
  have hA1eq : A1 = (E.map (fun e => ((updatedList E now1 N ++
      (E.filter (fun x => !(decide (x.uuid ∈ matchedList E N)))).map
        (applyObsolete now1)).find? (fun u => decide (u.uuid = e.uuid))).getD e) ++
      createdList E now1 gen1 0 N).filter
      (fun d => decide (d.restaurant_id = rid) && !d.is_deleted) := by
    rw [hA1def, hr1]
    rfl
  have hP1 : ∀ c ∈ N, ∃ a, (a ∈ A1 ∧ deals_match c a = true ∧
      deal_needs_update c a = false) ∧ ∀ b ∈ A1, deals_match c b = true → b = a := by
    intro c hc
    cases hf : E.find? (fun x => deals_match c x) with
    | some e =>
      have he : e ∈ E := List.mem_of_find?_eq_some hf
      have hkce : keyOfNorm c = keyOfDeal e := (deals_match_iff _ _).mp (List.find?_some hf)
      have hg := (g_spec E N now1 hnodup hkeysu e he).1 c hc hf
      refine ⟨if deal_needs_update c e = true then applyUpdate e c now1 else e,
        ⟨?_, ?_, ?_⟩, ?_⟩
      · rw [hA1eq]
        refine List.mem_filter.mpr
          ⟨List.mem_append.mpr (Or.inl (List.mem_map.mpr ⟨e, he, hg⟩)), ?_⟩
        cases hu : deal_needs_update c e <;>
          simp [hu, applyUpdate, hact e he, hrid e he]
      · rw [deals_match_iff]
        cases hu : deal_needs_update c e <;> simp [hu, keyOfDeal_applyUpdate, hkce]
      · cases hu : deal_needs_update c e with
        | true =>
          simp only [hu, if_true]
          exact needs_update_of_price_eq rfl
        | false => simp [hu]
      · intro b hb hmb
        rw [hA1eq] at hb
        rcases List.mem_filter.mp hb with ⟨hb1, hbq⟩
        rcases List.mem_append.mp hb1 with hbg | hbc
        · rcases List.mem_map.mp hbg with ⟨e', he', hbe'⟩
          by_cases hm' : ∃ c' ∈ N, E.find? (fun x => deals_match c' x) = some e'
          · rcases hm' with ⟨c', hc', hf'⟩
            have hg' := (g_spec E N now1 hnodup hkeysu e' he').1 c' hc' hf'
            rw [hg'] at hbe'
            have hkeyb : keyOfDeal b = keyOfDeal e' := by
              rw [← hbe']
              cases deal_needs_update c' e' <;> simp [keyOfDeal_applyUpdate]
            have hkcb : keyOfNorm c = keyOfDeal b := (deals_match_iff _ _).mp hmb
            have hcc' : c = c' := hkeysu c hc c' hc'
              (by rw [hkcb, hkeyb, ← (deals_match_iff _ _).mp (List.find?_some hf')])
            subst hcc'
            have hee : e' = e := by
              rw [hf'] at hf
              exact Option.some.injEq _ _ ▸ hf
            subst hee
            exact hbe'.symm
          · have hg' := (g_spec E N now1 hnodup hkeysu e' he').2 hm'
            rw [hg'] at hbe'
            rw [← hbe'] at hbq
            simp [applyObsolete] at hbq
        · rcases mem_createdList hbc with ⟨c3, hc3, hf3, j, rfl⟩
          have hkey3 := keyOfDeal_mkNewDeal c3 (gen1 j) now1 (hlowN c3 hc3)
          have hcc : c = c3 := hkeysu c hc c3 hc3
            (by rw [(deals_match_iff _ _).mp hmb, hkey3])
          subst hcc
          rw [hf] at hf3
          exact Option.noConfusion hf3
    | none =>
      rcases @created_of_no_match E now1 gen1 N c hc hf 0 with ⟨j, hj⟩
      refine ⟨mkNewDeal c (gen1 j) now1, ⟨?_, ?_, ?_⟩, ?_⟩
      · rw [hA1eq]
        refine List.mem_filter.mpr ⟨List.mem_append.mpr (Or.inr hj), ?_⟩
        simp [mkNewDeal, hridN c hc]
      · rw [deals_match_iff, keyOfDeal_mkNewDeal c (gen1 j) now1 (hlowN c hc)]
      · exact needs_update_of_price_eq rfl
      · intro b hb hmb
        rw [hA1eq] at hb
        rcases List.mem_filter.mp hb with ⟨hb1, hbq⟩
        rcases List.mem_append.mp hb1 with hbg | hbc
        · rcases List.mem_map.mp hbg with ⟨e', he', hbe'⟩
          by_cases hm' : ∃ c' ∈ N, E.find? (fun x => deals_match c' x) = some e'
          · rcases hm' with ⟨c', hc', hf'⟩
            have hg' := (g_spec E N now1 hnodup hkeysu e' he').1 c' hc' hf'
            rw [hg'] at hbe'
            have hkeyb : keyOfDeal b = keyOfDeal e' := by
              rw [← hbe']
              cases deal_needs_update c' e' <;> simp [keyOfDeal_applyUpdate]
            have hmce' : deals_match c e' = true := by
              rw [deals_match_iff]
              rw [← hkeyb]
              exact (deals_match_iff _ _).mp hmb
            have hnone := List.find?_eq_none.mp hf e' he'
            simp [hmce'] at hnone
          · have hg' := (g_spec E N now1 hnodup hkeysu e' he').2 hm'
            rw [hg'] at hbe'
            rw [← hbe'] at hbq
            simp [applyObsolete] at hbq
        · rcases mem_createdList hbc with ⟨c3, hc3, hf3, j', hb3⟩
          have hkey3 : keyOfDeal b = keyOfNorm c3 := by
            rw [hb3]
            exact keyOfDeal_mkNewDeal c3 (gen1 j') now1 (hlowN c3 hc3)
          have hcc : c = c3 := hkeysu c hc c3 hc3
            (by rw [(deals_match_iff _ _).mp hmb, hkey3])
          subst hcc
          refine createdList_key_unique hkeys hlowN 0 b hbc (mkNewDeal c (gen1 j) now1) hj ?_
          rw [hkey3, keyOfDeal_mkNewDeal c (gen1 j) now1 (hlowN c hc)]
  have hP2 : ∀ a ∈ A1, ∃ c ∈ N, deals_match c a = true := by
    intro a ha
    rw [hA1eq] at ha
    rcases List.mem_filter.mp ha with ⟨ha1, haq⟩
    rcases List.mem_append.mp ha1 with hag | hac
    · rcases List.mem_map.mp hag with ⟨e', he', hae'⟩
      by_cases hm' : ∃ c' ∈ N, E.find? (fun x => deals_match c' x) = some e'
      · rcases hm' with ⟨c', hc', hf'⟩
        have hg' := (g_spec E N now1 hnodup hkeysu e' he').1 c' hc' hf'
        rw [hg'] at hae'
        refine ⟨c', hc', ?_⟩
        rw [deals_match_iff]
        have hka : keyOfDeal a = keyOfDeal e' := by
          rw [← hae']
          cases deal_needs_update c' e' <;> simp [keyOfDeal_applyUpdate]
        rw [hka]
        exact (deals_match_iff _ _).mp (List.find?_some hf')
      · have hg' := (g_spec E N now1 hnodup hkeysu e' he').2 hm'
        rw [hg'] at hae'
        rw [← hae'] at haq
        simp [applyObsolete] at haq
    · rcases mem_createdList hac with ⟨c3, hc3, _, j, rfl⟩
      exact ⟨c3, hc3, (deals_match_iff _ _).mpr
        (keyOfDeal_mkNewDeal c3 (gen1 j) now1 (hlowN c3 hc3)).symm⟩
  have hfindA1 : ∀ c ∈ N, ∃ a, A1.find? (fun x => deals_match c x) = some a ∧
      deal_needs_update c a = false := by
    intro c hc
    rcases hP1 c hc with ⟨a, ⟨haA, ham, hanu⟩, huniq⟩
    exact ⟨a, find?_eq_some_of_unique haA ham huniq, hanu⟩
  have hr2 := save_deals_eq deals A1 rid now2 gen2 hne
  rw [hr2]
  refine ⟨?_, ?_, ?_⟩
  · show createdList A1 now2 gen2 0 N = []
    refine createdList_eq_nil (fun c hc => ?_) 0
    rcases hfindA1 c hc with ⟨a, hfa, _⟩
    rw [hfa]
    rfl
  · show updatedList A1 now2 N = []
    rw [updatedList, List.filterMap_eq_nil_iff]
    intro c hc
    rcases hfindA1 c hc with ⟨a, hfa, hnu⟩
    simp [hfa, hnu]
  · show (A1.filter (fun e => !(decide (e.uuid ∈ matchedList A1 N)))).map
      (applyObsolete now2) = []
    have hfe : A1.filter (fun e => !(decide (e.uuid ∈ matchedList A1 N))) = [] := by
      rw [List.filter_eq_nil_iff]
      intro a ha
      rcases hP2 a ha with ⟨c, hc, hma⟩
      rcases hP1 c hc with ⟨a0, ⟨ha0A, ham0, _⟩, huniq⟩
      have haa0 : a = a0 := huniq a ha hma
      subst haa0
      have hfa : A1.find? (fun x => deals_match c x) = some a :=
        find?_eq_some_of_unique ha0A ham0 huniq
      have hmem : a.uuid ∈ matchedList A1 N := mem_matchedList.mpr ⟨c, hc, a, hfa, rfl⟩
      simp [hmem]
    rw [hfe]
    rfl

/-- C2 witness: the identical two-candidate scrape re-run against the state the
first run wrote is a no-op. -/
theorem c2_idempotence_amended_witness :
    (save_deals [exRawRump, exRawWings]
      (activeDealsFor "r1" (applyState [exDealRump, exDealParma]
        (save_deals [exRawRump, exRawWings] [exDealRump, exDealParma] "r1" "t1" exGen)))
      "r1" "t2" exGen).new_deals = [] ∧
    (save_deals [exRawRump, exRawWings]
      (activeDealsFor "r1" (applyState [exDealRump, exDealParma]
        (save_deals [exRawRump, exRawWings] [exDealRump, exDealParma] "r1" "t1" exGen)))
      "r1" "t2" exGen).updated_deals = [] ∧
    (save_deals [exRawRump, exRawWings]
      (activeDealsFor "r1" (applyState [exDealRump, exDealParma]
        (save_deals [exRawRump, exRawWings] [exDealRump, exDealParma] "r1" "t1" exGen)))
      "r1" "t2" exGen).obsolete_deals = [] :=
  c2_idempotence_amended [exRawRump, exRawWings] [exDealRump, exDealParma]
    "r1" "t1" "t2" exGen exGen (by decide) (by decide) (by decide) (by decide) (by decide)
